import Mathlib

/-!
Verification of the documentation-synchronization pipeline of bella-api-doc-gen.

The Python sources are shallowly embedded over a JSON value type.  Python dicts
become insertion-ordered association lists (`List (String × Json)`); in-place
mutation becomes functional update; `copy.deepcopy` is the identity.  Where the
Python code would raise a `TypeError`/`AttributeError` on a node of the wrong
shape (for example calling `.items()` on a non-dict), the embedding treats the
node as having no entries and leaves it unchanged; on every input on which the
Python code runs without such a type error the two agree.  External
collaborators (database rows, HTTP services) are modelled as oracle parameters
of the orchestration function.
-/

/-- A JSON value, the data the pipeline manipulates.  Objects keep the
insertion order of their members, like Python dicts. -/
inductive Json where
  | null
  | bool (b : Bool)
  | num (n : Int)
  | str (s : String)
  | arr (elems : List Json)
  | obj (fields : List (String × Json))
deriving Repr

/-- A Python dict with string keys: an insertion-ordered association list. -/
abbrev Obj := List (String × Json)

mutual

/-- Structural equality of JSON values, Python `==` on parsed JSON. -/
def jsonBeq : Json → Json → Bool
  | .null, .null => true
  | .bool a, .bool b => a == b
  | .num a, .num b => a == b
  | .str a, .str b => a == b
  | .arr a, .arr b => arrBeq a b
  | .obj a, .obj b => objBeq a b
  | _, _ => false

/-- Elementwise equality of JSON arrays. -/
def arrBeq : List Json → List Json → Bool
  | [], [] => true
  | a :: as1, b :: bs1 => jsonBeq a b && arrBeq as1 bs1
  | _, _ => false

/-- Memberwise equality of JSON objects (order-sensitive, as `==` on the
underlying association lists). -/
def objBeq : List (String × Json) → List (String × Json) → Bool
  | [], [] => true
  | (k1, v1) :: r1, (k2, v2) :: r2 => k1 == k2 && jsonBeq v1 v2 && objBeq r1 r2
  | _, _ => false

end

mutual

theorem eq_of_jsonBeq : ∀ {a b : Json}, jsonBeq a b = true → a = b
  | .null, .null, _ => rfl
  | .bool _, .bool _, h => by
    simp only [jsonBeq, beq_iff_eq] at h; rw [h]
  | .num _, .num _, h => by
    simp only [jsonBeq, beq_iff_eq] at h; rw [h]
  | .str _, .str _, h => by
    simp only [jsonBeq, beq_iff_eq] at h; rw [h]
  | .arr _, .arr _, h => by
    simp only [jsonBeq] at h; rw [eq_of_arrBeq h]
  | .obj _, .obj _, h => by
    simp only [jsonBeq] at h; rw [eq_of_objBeq h]

theorem eq_of_arrBeq : ∀ {a b : List Json}, arrBeq a b = true → a = b
  | [], [], _ => rfl
  | x :: xs, y :: ys, h => by
    simp only [arrBeq, Bool.and_eq_true] at h
    rw [eq_of_jsonBeq h.1, eq_of_arrBeq h.2]

theorem eq_of_objBeq : ∀ {a b : List (String × Json)}, objBeq a b = true → a = b
  | [], [], _ => rfl
  | (k1, v1) :: r1, (k2, v2) :: r2, h => by
    simp only [objBeq, Bool.and_eq_true, beq_iff_eq] at h
    rw [h.1.1, eq_of_jsonBeq h.1.2, eq_of_objBeq h.2]

end

mutual

theorem jsonBeq_refl : ∀ a : Json, jsonBeq a a = true
  | .null => rfl
  | .bool _ => by simp [jsonBeq]
  | .num _ => by simp [jsonBeq]
  | .str _ => by simp [jsonBeq]
  | .arr l => by simp only [jsonBeq]; exact arrBeq_refl l
  | .obj l => by simp only [jsonBeq]; exact objBeq_refl l

theorem arrBeq_refl : ∀ a : List Json, arrBeq a a = true
  | [] => rfl
  | x :: xs => by
    simp only [arrBeq, Bool.and_eq_true]
    exact ⟨jsonBeq_refl x, arrBeq_refl xs⟩

theorem objBeq_refl : ∀ a : List (String × Json), objBeq a a = true
  | [] => rfl
  | (k, v) :: r => by
    simp [objBeq, jsonBeq_refl v, objBeq_refl r]

end

instance : DecidableEq Json := fun a b =>
  if h : jsonBeq a b = true then
    isTrue (eq_of_jsonBeq h)
  else
    isFalse (fun he => h (he ▸ jsonBeq_refl a))

namespace Json

/-- First value bound to a key, like a Python dict access (keys are unique in
any list that denotes a real dict). -/
def lookup : Obj → String → Option Json
  | [], _ => none
  | (k, v) :: rest, key => if k = key then some v else lookup rest key

/-- Python `key in d`. -/
def containsKey (d : Obj) (key : String) : Bool :=
  (lookup d key).isSome

/-- Python `d[key] = val`: replace in place if the key is present, else append. -/
def setKey : Obj → String → Json → Obj
  | [], key, val => [(key, val)]
  | (k, v) :: rest, key, val =>
    if k = key then (k, val) :: rest else (k, v) :: setKey rest key val

/-- The members of an object node; `[]` on any other node (where Python would
raise, see the file comment). -/
def asObj : Json → Obj
  | .obj fields => fields
  | _ => []

/-- The elements of an array node; `[]` on any other node. -/
def asArr : Json → List Json
  | .arr elems => elems
  | _ => []

/-- Python `j.get(key, default)`. -/
def getD (j : Json) (key : String) (default : Json) : Json :=
  match lookup j.asObj key with
  | some v => v
  | none => default

/-- Python truthiness of a JSON value (`if j:`). -/
def pyTruthy : Json → Bool
  | .null => false
  | .bool b => b
  | .num n => n != 0
  | .str s => !s.isEmpty
  | .arr l => !l.isEmpty
  | .obj l => !l.isEmpty

/-- Python `d.update(e)`: entries of `e` overwrite entries of `d` in place,
new keys are appended in order. -/
def updateObj (d : Obj) (e : Obj) : Obj :=
  e.foldl (fun acc kv => setKey acc kv.1 kv.2) d

theorem lookup_setKey_self (d : Obj) (k : String) (v : Json) :
    lookup (setKey d k v) k = some v := by
  induction d with
  | nil => simp [setKey, lookup]
  | cons hd tl ih =>
    obtain ⟨k1, v1⟩ := hd
    by_cases hk : k1 = k
    · subst hk; simp [setKey, lookup]
    · simp [setKey, lookup, hk, ih]

theorem lookup_setKey_ne (d : Obj) (k k' : String) (v : Json) (h : k' ≠ k) :
    lookup (setKey d k v) k' = lookup d k' := by
  have hne : ¬(k = k') := fun hh => h hh.symm
  induction d with
  | nil => simp [setKey, lookup, hne]
  | cons hd tl ih =>
    obtain ⟨k1, v1⟩ := hd
    by_cases hk : k1 = k
    · subst hk; simp [setKey, lookup, hne]
    · by_cases hk' : k1 = k'
      · subst hk'; simp [setKey, lookup, h, hk]
      · simp [setKey, lookup, hk, hk', ih]

theorem containsKey_setKey_ne (d : Obj) (k k' : String) (v : Json) (h : k' ≠ k) :
    containsKey (setKey d k v) k' = containsKey d k' := by
  simp [containsKey, lookup_setKey_ne d k k' v h]

/-- Setting an absent key appends the binding. -/
theorem setKey_eq_append (d : Obj) (k : String) (v : Json)
    (h : containsKey d k = false) : setKey d k v = d ++ [(k, v)] := by
  induction d with
  | nil => simp [setKey]
  | cons hd tl ih =>
    obtain ⟨k1, v1⟩ := hd
    simp only [containsKey, lookup] at h
    by_cases hk : k1 = k
    · simp [hk] at h
    · simp only [hk, if_false] at h
      simp [setKey, hk, ih (by simpa [containsKey] using h)]

/-- Setting a present key does not enlarge the key set. -/
theorem lookup_setKey_none (d : Obj) (k k' : String) (v : Json)
    (hpresent : containsKey d k = true) (hnone : lookup d k' = none) :
    lookup (setKey d k v) k' = none := by
  induction d with
  | nil => simp [containsKey, lookup] at hpresent
  | cons hd tl ih =>
    obtain ⟨k1, v1⟩ := hd
    simp only [lookup] at hnone
    by_cases hk' : k1 = k'
    · simp [hk'] at hnone
    · simp only [hk', if_false] at hnone
      by_cases hk : k1 = k
      · have hkk : ¬(k = k') := fun hh => hk' (hk.trans hh)
        simp [setKey, hk, lookup, hkk, hnone]
      · simp only [containsKey, lookup, hk, if_false] at hpresent
        simp [setKey, hk, lookup, hk', ih (by simpa [containsKey] using hpresent) hnone]

theorem lookup_updateObj_not_mem (d e : Obj) (k : String)
    (h : containsKey e k = false) :
    lookup (updateObj d e) k = lookup d k := by
  induction e generalizing d with
  | nil => simp [updateObj]
  | cons hd tl ih =>
    obtain ⟨k1, v1⟩ := hd
    simp only [containsKey, lookup] at h
    by_cases hk : k1 = k
    · simp [hk] at h
    · simp only [hk, if_false] at h
      have := ih (setKey d k1 v1) (by simpa [containsKey] using h)
      simp only [updateObj, List.foldl_cons] at *
      rw [this, lookup_setKey_ne _ _ _ _ (fun hh => hk hh.symm)]

end Json

/-! ## app/services/diff_service.py -/

open Json

/-- The diff report produced by `calculate_spec_diff`
(src/app/services/diff_service.py): added/removed/modified paths and
component schemas.  Transient, not persisted. -/
structure DiffReport where
  added_paths : Obj
  removed_paths : Obj
  modified_paths : Obj
  added_components_schemas : Obj
  removed_components_schemas : Obj
  modified_components_schemas : Obj
deriving Repr, DecidableEq

/-- The empty diff report all six fields of which are empty dicts. -/
def DiffReport.empty : DiffReport :=
  { added_paths := [], removed_paths := [], modified_paths := [],
    added_components_schemas := [], removed_components_schemas := [],
    modified_components_schemas := [] }

/-- `old_spec.get("paths", {}) if old_spec else {}` of `calculate_spec_diff`. -/
def oldPathsOf (old_spec : Option Json) : Obj :=
  match old_spec with
  | some o => if pyTruthy o then (o.getD "paths" (Json.obj [])).asObj else []
  | none => []

/-- `old_spec.get("components", {}).get("schemas", {}) if old_spec else {}`. -/
def oldSchemasOf (old_spec : Option Json) : Obj :=
  match old_spec with
  | some o =>
    if pyTruthy o then
      ((o.getD "components" (Json.obj [])).getD "schemas" (Json.obj [])).asObj
    else []
  | none => []

/-- `new_spec.get("paths", {})`. -/
def newPathsOf (new_spec : Json) : Obj :=
  (new_spec.getD "paths" (Json.obj [])).asObj

/-- `new_spec.get("components", {}).get("schemas", {})`. -/
def newSchemasOf (new_spec : Json) : Obj :=
  ((new_spec.getD "components" (Json.obj [])).getD "schemas" (Json.obj [])).asObj

/-- One iteration of the first loop of each diffing section of
`calculate_spec_diff`: a key absent from the old dict is added, a key present
with a different value is modified (recording both versions). -/
def addModStep (olds : Obj) (acc : Obj × Obj) (kv : String × Json) : Obj × Obj :=
  match lookup olds kv.1 with
  | none => (setKey acc.1 kv.1 kv.2, acc.2)
  | some ov =>
    if ov = kv.2 then acc
    else (acc.1, setKey acc.2 kv.1 (Json.obj [("old", ov), ("new", kv.2)]))

/-- The first loop of each diffing section, iterating the new entries. -/
def addModLoop (olds : Obj) (news : Obj) : Obj × Obj :=
  news.foldl (addModStep olds) ([], [])

/-- One iteration of the second loop of each diffing section: a key of the old
dict absent from the new dict is removed. -/
def removedStep (news : Obj) (acc : Obj) (kv : String × Json) : Obj :=
  if containsKey news kv.1 then acc else setKey acc kv.1 kv.2

/-- The second loop of each diffing section, iterating the old entries. -/
def removedLoop (olds : Obj) (news : Obj) : Obj :=
  olds.foldl (removedStep news) []

/-- `calculate_spec_diff` (src/app/services/diff_service.py): a simplified
diff between two OpenAPI specifications over paths and component schemas.
`none` as the old spec (first run) classifies everything as added. -/
def calculate_spec_diff (old_spec : Option Json) (new_spec : Json) : DiffReport :=
  let old_paths := oldPathsOf old_spec
  let new_paths := newPathsOf new_spec
  let old_schemas := oldSchemasOf old_spec
  let new_schemas := newSchemasOf new_spec
  match old_spec with
  | none =>
    { DiffReport.empty with
      added_paths := new_paths, added_components_schemas := new_schemas }
  | some _ =>
    let pa := addModLoop old_paths new_paths
    let rp := removedLoop old_paths new_paths
    let sa := addModLoop old_schemas new_schemas
    let rs := removedLoop old_schemas new_schemas
    { added_paths := pa.1, removed_paths := rp, modified_paths := pa.2,
      added_components_schemas := sa.1, removed_components_schemas := rs,
      modified_components_schemas := sa.2 }

/-! ### Characterization of the diff loops -/

theorem lookup_of_mem_nodupKeys (l : Obj) (k : String) (v : Json)
    (hnd : (l.map Prod.fst).Nodup) (hmem : (k, v) ∈ l) :
    lookup l k = some v := by
  induction l with
  | nil => simp at hmem
  | cons hd tl ih =>
    obtain ⟨k1, v1⟩ := hd
    simp only [List.map_cons, List.nodup_cons] at hnd
    rcases List.mem_cons.mp hmem with h | h
    · obtain ⟨hk, hv⟩ := Prod.mk.injEq .. ▸ h
      simp_all [lookup]
    · have hk : k1 ≠ k := by
        intro hh
        exact hnd.1 (hh ▸ (List.mem_map.mpr ⟨(k, v), h, rfl⟩))
      simp [lookup, hk, ih hnd.2 h]

theorem containsKey_of_mem (l : Obj) (k : String) (v : Json) (hmem : (k, v) ∈ l) :
    containsKey l k = true := by
  induction l with
  | nil => simp at hmem
  | cons hd tl ih =>
    obtain ⟨k1, v1⟩ := hd
    rcases List.mem_cons.mp hmem with h | h
    · obtain ⟨hk, hv⟩ := Prod.mk.injEq .. ▸ h
      simp [containsKey, lookup, hk]
    · by_cases hk : k1 = k
      · simp [containsKey, lookup, hk]
      · simpa [containsKey, lookup, hk] using ih h

theorem addModLoop_go_not_mem (olds news : Obj) (acc : Obj × Obj) (k : String)
    (h : ∀ kv ∈ news, kv.1 ≠ k) :
    lookup (news.foldl (addModStep olds) acc).1 k = lookup acc.1 k ∧
    lookup (news.foldl (addModStep olds) acc).2 k = lookup acc.2 k := by
  induction news generalizing acc with
  | nil => simp
  | cons hd tl ih =>
    have hhd : hd.1 ≠ k := h hd (List.mem_cons_self _ _)
    have htl : ∀ kv ∈ tl, kv.1 ≠ k := fun kv hm => h kv (List.mem_cons_of_mem _ hm)
    rw [List.foldl_cons]
    have hstep := ih (addModStep olds acc hd) htl
    have h1 : lookup (addModStep olds acc hd).1 k = lookup acc.1 k := by
      rcases hl : lookup olds hd.1 with _ | ov
      · simp [addModStep, hl, lookup_setKey_ne _ _ _ _ (Ne.symm hhd)]
      · by_cases hov : ov = hd.2 <;> simp [addModStep, hl, hov]
    have h2 : lookup (addModStep olds acc hd).2 k = lookup acc.2 k := by
      rcases hl : lookup olds hd.1 with _ | ov
      · simp [addModStep, hl]
      · by_cases hov : ov = hd.2 <;>
          simp [addModStep, hl, hov, lookup_setKey_ne _ _ _ _ (Ne.symm hhd)]
    exact ⟨hstep.1.trans h1, hstep.2.trans h2⟩

theorem addModLoop_go_lookup (olds news : Obj) (acc : Obj × Obj) (k : String)
    (hnd : (news.map Prod.fst).Nodup)
    (h1 : lookup acc.1 k = none) (h2 : lookup acc.2 k = none) :
    lookup (news.foldl (addModStep olds) acc).1 k =
      (match lookup news k, lookup olds k with
       | some v, none => some v
       | _, _ => none) ∧
    lookup (news.foldl (addModStep olds) acc).2 k =
      (match lookup news k, lookup olds k with
       | some v, some ov =>
         if ov = v then none else some (Json.obj [("old", ov), ("new", v)])
       | _, _ => none) := by
  induction news generalizing acc with
  | nil =>
    simp only [List.foldl_nil, lookup, h1, h2]
    rcases lookup olds k with _ | ov <;> simp
  | cons hd tl ih =>
    obtain ⟨k1, v1⟩ := hd
    simp only [List.map_cons, List.nodup_cons] at hnd
    have hnotin : ∀ kv ∈ tl, kv.1 ≠ k1 := by
      intro kv hm hh
      exact hnd.1 (hh ▸ (List.mem_map.mpr ⟨kv, hm, rfl⟩))
    rw [List.foldl_cons]
    by_cases hk : k1 = k
    · subst hk
      have hrest := addModLoop_go_not_mem olds tl (addModStep olds acc (k1, v1)) k1 hnotin
      rcases hl : lookup olds k1 with _ | ov
      · refine ⟨hrest.1.trans ?_, hrest.2.trans ?_⟩ <;>
          simp [addModStep, hl, lookup, lookup_setKey_self, h2]
      · by_cases hov : ov = v1
        · refine ⟨hrest.1.trans ?_, hrest.2.trans ?_⟩ <;>
            simp [addModStep, hl, hov, lookup, h1, h2]
        · refine ⟨hrest.1.trans ?_, hrest.2.trans ?_⟩ <;>
            simp [addModStep, hl, hov, lookup, lookup_setKey_self, h1]
    · have hstep1 : lookup (addModStep olds acc (k1, v1)).1 k = none := by
        rcases hl : lookup olds k1 with _ | ov
        · simpa [addModStep, hl, lookup_setKey_ne _ _ _ _ (fun hh => hk hh.symm)] using h1
        · by_cases hov : ov = v1 <;> simp [addModStep, hl, hov, h1]
      have hstep2 : lookup (addModStep olds acc (k1, v1)).2 k = none := by
        rcases hl : lookup olds k1 with _ | ov
        · simp [addModStep, hl, h2]
        · by_cases hov : ov = v1 <;>
            simp [addModStep, hl, hov, h2,
              lookup_setKey_ne _ _ _ _ (fun hh => hk hh.symm)]
      have := ih (addModStep olds acc (k1, v1)) hnd.2 hstep1 hstep2
      simpa [lookup, hk] using this

/-- The keys of the added and modified dicts of `addModLoop`: a key of the new
dict absent from the old is added with its new value; a key present in both
with different values is modified, carrying both values. -/
theorem addModLoop_lookup (olds news : Obj) (k : String)
    (hnd : (news.map Prod.fst).Nodup) :
    lookup (addModLoop olds news).1 k =
      (match lookup news k, lookup olds k with
       | some v, none => some v
       | _, _ => none) ∧
    lookup (addModLoop olds news).2 k =
      (match lookup news k, lookup olds k with
       | some v, some ov =>
         if ov = v then none else some (Json.obj [("old", ov), ("new", v)])
       | _, _ => none) :=
  addModLoop_go_lookup olds news ([], []) k hnd rfl rfl

theorem removedLoop_go_not_mem (news olds : Obj) (acc : Obj) (k : String)
    (h : ∀ kv ∈ olds, kv.1 ≠ k) :
    lookup (olds.foldl (removedStep news) acc) k = lookup acc k := by
  induction olds generalizing acc with
  | nil => simp
  | cons hd tl ih =>
    have hhd : hd.1 ≠ k := h hd (List.mem_cons_self _ _)
    have htl : ∀ kv ∈ tl, kv.1 ≠ k := fun kv hm => h kv (List.mem_cons_of_mem _ hm)
    rw [List.foldl_cons]
    refine (ih (removedStep news acc hd) htl).trans ?_
    by_cases hc : containsKey news hd.1 <;>
      simp [removedStep, hc, lookup_setKey_ne _ _ _ _ (Ne.symm hhd)]

theorem removedLoop_go_lookup (olds news : Obj) (acc : Obj) (k : String)
    (hnd : (olds.map Prod.fst).Nodup) (hacc : lookup acc k = none) :
    lookup (olds.foldl (removedStep news) acc) k =
      (match lookup olds k with
       | some v => if containsKey news k then none else some v
       | none => none) := by
  induction olds generalizing acc with
  | nil => simp [lookup, hacc]
  | cons hd tl ih =>
    obtain ⟨k1, v1⟩ := hd
    simp only [List.map_cons, List.nodup_cons] at hnd
    have hnotin : ∀ kv ∈ tl, kv.1 ≠ k1 := by
      intro kv hm hh
      exact hnd.1 (hh ▸ (List.mem_map.mpr ⟨kv, hm, rfl⟩))
    rw [List.foldl_cons]
    by_cases hk : k1 = k
    · subst hk
      rw [removedLoop_go_not_mem news tl (removedStep news acc (k1, v1)) k1 hnotin]
      by_cases hc : containsKey news k1 <;>
        simp [removedStep, hc, lookup, lookup_setKey_self, hacc]
    · have hstep : lookup (removedStep news acc (k1, v1)) k = none := by
        by_cases hc : containsKey news k1 <;>
          simp [removedStep, hc, hacc,
            lookup_setKey_ne _ _ _ _ (fun hh => hk hh.symm)]
      rw [ih (removedStep news acc (k1, v1)) hnd.2 hstep]
      simp [lookup, hk]

/-- The removed dict of `removedLoop`: exactly the old keys absent from the
new dict, with their old values. -/
theorem removedLoop_lookup (olds news : Obj) (k : String)
    (hnd : (olds.map Prod.fst).Nodup) :
    lookup (removedLoop olds news) k =
      (match lookup olds k with
       | some v => if containsKey news k then none else some v
       | none => none) :=
  removedLoop_go_lookup olds news [] k hnd rfl

/-- Folding `addModStep` over entries that all agree with the old dict
changes nothing. -/
theorem addModLoop_go_diag (olds : Obj) (suffix : Obj) (acc : Obj × Obj)
    (h : ∀ kv ∈ suffix, lookup olds kv.1 = some kv.2) :
    suffix.foldl (addModStep olds) acc = acc := by
  induction suffix generalizing acc with
  | nil => rfl
  | cons hd tl ih =>
    have hhd := h hd (List.mem_cons_self _ _)
    have htl : ∀ kv ∈ tl, lookup olds kv.1 = some kv.2 :=
      fun kv hm => h kv (List.mem_cons_of_mem _ hm)
    rw [List.foldl_cons]
    have : addModStep olds acc hd = acc := by simp [addModStep, hhd]
    rw [this, ih acc htl]

theorem addModLoop_diag (l : Obj) (hnd : (l.map Prod.fst).Nodup) :
    addModLoop l l = ([], []) :=
  addModLoop_go_diag l l ([], [])
    (fun kv hm => lookup_of_mem_nodupKeys l kv.1 kv.2 hnd hm)

theorem removedLoop_diag (l : Obj) : removedLoop l l = [] := by
  have : ∀ (suffix : Obj) (acc : Obj), (∀ kv ∈ suffix, containsKey l kv.1 = true) →
      suffix.foldl (removedStep l) acc = acc := by
    intro suffix
    induction suffix with
    | nil => intro acc _; rfl
    | cons hd tl ih =>
      intro acc h
      rw [List.foldl_cons]
      have : removedStep l acc hd = acc := by
        simp [removedStep, h hd (List.mem_cons_self _ _)]
      rw [this, ih acc (fun kv hm => h kv (List.mem_cons_of_mem _ hm))]
  exact this l [] (fun kv hm => containsKey_of_mem l kv.1 kv.2 hm)

/-- On `some s`, the old-paths extraction of `calculate_spec_diff` agrees
with the new-paths extraction (the truthiness branch only matters for values
that have no entries anyway). -/
theorem oldPathsOf_some (s : Json) : oldPathsOf (some s) = newPathsOf s := by
  cases s with
  | obj l =>
    cases l with
    | nil => simp [oldPathsOf, newPathsOf, pyTruthy, getD, asObj, lookup]
    | cons hd tl => simp [oldPathsOf, newPathsOf, pyTruthy]
  | arr l => simp [oldPathsOf, newPathsOf, pyTruthy, getD, asObj, lookup, ite_self]
  | null => simp [oldPathsOf, newPathsOf, pyTruthy, getD, asObj, lookup]
  | bool b => simp [oldPathsOf, newPathsOf, pyTruthy, getD, asObj, lookup, ite_self]
  | num n => simp [oldPathsOf, newPathsOf, pyTruthy, getD, asObj, lookup, ite_self]
  | str s => simp [oldPathsOf, newPathsOf, pyTruthy, getD, asObj, lookup, ite_self]

theorem oldSchemasOf_some (s : Json) : oldSchemasOf (some s) = newSchemasOf s := by
  cases s with
  | obj l =>
    cases l with
    | nil => simp [oldSchemasOf, newSchemasOf, pyTruthy, getD, asObj, lookup]
    | cons hd tl => simp [oldSchemasOf, newSchemasOf, pyTruthy]
  | arr l => simp [oldSchemasOf, newSchemasOf, pyTruthy, getD, asObj, lookup, ite_self]
  | null => simp [oldSchemasOf, newSchemasOf, pyTruthy, getD, asObj, lookup]
  | bool b => simp [oldSchemasOf, newSchemasOf, pyTruthy, getD, asObj, lookup, ite_self]
  | num n => simp [oldSchemasOf, newSchemasOf, pyTruthy, getD, asObj, lookup, ite_self]
  | str s => simp [oldSchemasOf, newSchemasOf, pyTruthy, getD, asObj, lookup, ite_self]

/-! ### Claim C5 and C9 -/

/-- Sample old specification used to instantiate diff theorems. -/
def sampleOldSpec : Json :=
  Json.obj [("paths", Json.obj [("/a", Json.null), ("/c", Json.num 1)]),
            ("components", Json.obj [("schemas", Json.obj [("S", Json.null)])])]

/-- Sample new specification used to instantiate diff theorems. -/
def sampleNewSpec : Json :=
  Json.obj [("paths", Json.obj [("/a", Json.str "x"), ("/b", Json.null)]),
            ("components", Json.obj [("schemas", Json.obj [("S", Json.null), ("T", Json.num 2)])])]

/-- C5.  `calculate_spec_diff` classifies paths and component schemas
independently: with no previous specification every current path and schema is
added; otherwise a key only in the current spec is added, a key only in the
previous spec is removed, and a key in both with structurally different values
is modified, carrying both versions.  (Totality of the computation is
witnessed by `calculate_spec_diff` being a total function.)  The dict
hypotheses say the key lists denote real Python dicts (no duplicate keys). -/
theorem c5_diff_classification :
    (∀ new_spec : Json,
      calculate_spec_diff none new_spec =
        { DiffReport.empty with
            added_paths := newPathsOf new_spec,
            added_components_schemas := newSchemasOf new_spec }) ∧
    (∀ (o new_spec : Json) (k : String),
      (((newPathsOf new_spec).map Prod.fst).Nodup) →
      (((oldPathsOf (some o)).map Prod.fst).Nodup) →
      (((newSchemasOf new_spec).map Prod.fst).Nodup) →
      (((oldSchemasOf (some o)).map Prod.fst).Nodup) →
      (lookup (calculate_spec_diff (some o) new_spec).added_paths k =
        (match lookup (newPathsOf new_spec) k, lookup (oldPathsOf (some o)) k with
         | some v, none => some v
         | _, _ => none)) ∧
      (lookup (calculate_spec_diff (some o) new_spec).removed_paths k =
        (match lookup (oldPathsOf (some o)) k with
         | some v => if containsKey (newPathsOf new_spec) k then none else some v
         | none => none)) ∧
      (lookup (calculate_spec_diff (some o) new_spec).modified_paths k =
        (match lookup (newPathsOf new_spec) k, lookup (oldPathsOf (some o)) k with
         | some v, some ov =>
           if ov = v then none else some (Json.obj [("old", ov), ("new", v)])
         | _, _ => none)) ∧
      (lookup (calculate_spec_diff (some o) new_spec).added_components_schemas k =
        (match lookup (newSchemasOf new_spec) k, lookup (oldSchemasOf (some o)) k with
         | some v, none => some v
         | _, _ => none)) ∧
      (lookup (calculate_spec_diff (some o) new_spec).removed_components_schemas k =
        (match lookup (oldSchemasOf (some o)) k with
         | some v => if containsKey (newSchemasOf new_spec) k then none else some v
         | none => none)) ∧
      (lookup (calculate_spec_diff (some o) new_spec).modified_components_schemas k =
        (match lookup (newSchemasOf new_spec) k, lookup (oldSchemasOf (some o)) k with
         | some v, some ov =>
           if ov = v then none else some (Json.obj [("old", ov), ("new", v)])
         | _, _ => none))) := by
  constructor
  · intro new_spec
    rfl
  · intro o new_spec k hnp hop hns hos
    have hp := addModLoop_lookup (oldPathsOf (some o)) (newPathsOf new_spec) k hnp
    have hs := addModLoop_lookup (oldSchemasOf (some o)) (newSchemasOf new_spec) k hns
    have hrp := removedLoop_lookup (oldPathsOf (some o)) (newPathsOf new_spec) k hop
    have hrs := removedLoop_lookup (oldSchemasOf (some o)) (newSchemasOf new_spec) k hos
    exact ⟨hp.1, hrp, hp.2, hs.1, hrs, hs.2⟩

/-- Witness for C5 at a concrete pair of specifications: `/b` is added,
`/c` is removed, `/a` is modified with both versions recorded, schema `T`
is added and schema `S` (unchanged) is classified nowhere. -/
theorem c5_diff_classification_witness :
    lookup (calculate_spec_diff (some sampleOldSpec) sampleNewSpec).added_paths "/b" =
      some Json.null ∧
    lookup (calculate_spec_diff (some sampleOldSpec) sampleNewSpec).removed_paths "/c" =
      some (Json.num 1) ∧
    lookup (calculate_spec_diff (some sampleOldSpec) sampleNewSpec).modified_paths "/a" =
      some (Json.obj [("old", Json.null), ("new", Json.str "x")]) ∧
    lookup (calculate_spec_diff (some sampleOldSpec) sampleNewSpec).added_components_schemas "T" =
      some (Json.num 2) ∧
    lookup (calculate_spec_diff (some sampleOldSpec) sampleNewSpec).modified_components_schemas "S" =
      none := by
  have hb := (c5_diff_classification.2 sampleOldSpec sampleNewSpec "/b"
    (by decide) (by decide) (by decide) (by decide)).1
  have hc := (c5_diff_classification.2 sampleOldSpec sampleNewSpec "/c"
    (by decide) (by decide) (by decide) (by decide)).2.1
  have ha := (c5_diff_classification.2 sampleOldSpec sampleNewSpec "/a"
    (by decide) (by decide) (by decide) (by decide)).2.2.1
  have ht := (c5_diff_classification.2 sampleOldSpec sampleNewSpec "T"
    (by decide) (by decide) (by decide) (by decide)).2.2.2.1
  have hsm := (c5_diff_classification.2 sampleOldSpec sampleNewSpec "S"
    (by decide) (by decide) (by decide) (by decide)).2.2.2.2.2
  refine ⟨hb.trans (by decide), hc.trans (by decide), ha.trans (by decide),
    ht.trans (by decide), hsm.trans (by decide)⟩

/-- C9.  Diffing a specification against itself yields a report all six
dicts of which are empty. -/
theorem c9_diff_self_empty (s : Json)
    (hp : ((newPathsOf s).map Prod.fst).Nodup)
    (hs : ((newSchemasOf s).map Prod.fst).Nodup) :
    calculate_spec_diff (some s) s = DiffReport.empty := by
  show
    ({ added_paths := (addModLoop (oldPathsOf (some s)) (newPathsOf s)).1,
       removed_paths := removedLoop (oldPathsOf (some s)) (newPathsOf s),
       modified_paths := (addModLoop (oldPathsOf (some s)) (newPathsOf s)).2,
       added_components_schemas := (addModLoop (oldSchemasOf (some s)) (newSchemasOf s)).1,
       removed_components_schemas := removedLoop (oldSchemasOf (some s)) (newSchemasOf s),
       modified_components_schemas := (addModLoop (oldSchemasOf (some s)) (newSchemasOf s)).2 }
     : DiffReport) = DiffReport.empty
  rw [oldPathsOf_some, oldSchemasOf_some, addModLoop_diag _ hp, addModLoop_diag _ hs,
    removedLoop_diag, removedLoop_diag]
  rfl

/-- Witness for C9 at a concrete specification. -/
theorem c9_diff_self_empty_witness :
    calculate_spec_diff (some sampleNewSpec) sampleNewSpec = DiffReport.empty :=
  c9_diff_self_empty sampleNewSpec (by decide) (by decide)

/-! ## app/services/des_completion_service.py -/

set_option maxRecDepth 8000

/-- Python `s.split(c)` on the character list: split at every separator,
keeping empty pieces (`"a//b" ↦ ["a", "", "b"]`, `"" ↦ [""]`). -/
def splitChar (c : Char) : List Char → List (List Char)
  | [] => [[]]
  | x :: xs =>
    if x = c then [] :: splitChar c xs
    else
      match splitChar c xs with
      | [] => [[x]]
      | p :: ps => (x :: p) :: ps

/-- Python `s.split("/")`. -/
def pySplitSlash (s : String) : List String :=
  (splitChar '/' s.data).map (fun l => { data := l })

/-- Python `s.strip("/")`: remove all leading and trailing slashes. -/
def pyStripSlashes (s : String) : String :=
  { data := ((s.data.dropWhile (fun ch => ch = '/')).reverse.dropWhile
      (fun ch => ch = '/')).reverse }

/-- Whether the first list is a prefix of the second. -/
def isPfxList : List Char → List Char → Bool
  | [], _ => true
  | _ :: _, [] => false
  | a :: as1, b :: bs1 => a = b && isPfxList as1 bs1

/-- Python `s.startswith(p)`. -/
def pyStartsWith (s p : String) : Bool := isPfxList p.data s.data

/-- Python `s.split("/")[-1]`. -/
def lastSegment (s : String) : String := (pySplitSlash s).getLastD ""

/-- Python `set.add`: sets are modelled as duplicate-free lists in insertion
order; claims about them are stated through membership. -/
def insertNew (s : List String) (x : String) : List String :=
  if x ∈ s then s else s ++ [x]

theorem mem_insertNew {s : List String} {x n : String} :
    n ∈ insertNew s x ↔ n ∈ s ∨ n = x := by
  by_cases h : x ∈ s
  · simp only [insertNew, if_pos h]
    constructor
    · exact Or.inl
    · rintro (hn | rfl)
      exacts [hn, h]
  · simp [insertNew, h]

/-- The reference target table of `_extract_schema_references`. -/
def schemaRefHead : String := "#/components/schemas/"

/-- The check `_extract_schema_references` performs on a dict node: a string
entry at key `$ref` starting with `#/components/schemas/` contributes its
last slash-segment to the accumulated set. -/
def refCheck (fields : Obj) (acc : List String) : List String :=
  match Json.lookup fields "$ref" with
  | some (Json.str v) =>
    if pyStartsWith v schemaRefHead then insertNew acc (lastSegment v) else acc
  | _ => acc

mutual

/-- `_extract_schema_references` (src/app/services/des_completion_service.py):
recursively traverses an OpenAPI element and collects schema references into
the accumulated set (the Python function mutates the set in place). -/
def extract_schema_references : Json → List String → List String
  | Json.obj fields, acc => extractRefsFields fields (refCheck fields acc)
  | Json.arr elems, acc => extractRefsElems elems acc
  | _, acc => acc
termination_by structural j _ => j

/-- The dict branch of `_extract_schema_references`: recurse over the values
of every member. -/
def extractRefsFields : Obj → List String → List String
  | [], acc => acc
  | kv :: rest, acc => extractRefsFields rest (extract_schema_references kv.2 acc)
termination_by structural l _ => l

/-- The list branch of `_extract_schema_references`: recurse over the items. -/
def extractRefsElems : List Json → List String → List String
  | [], acc => acc
  | e :: rest, acc => extractRefsElems rest (extract_schema_references e acc)
termination_by structural l _ => l

end

/-- `t` occurs as a node of the JSON tree `j` (the root, a member value of an
object at any depth, or an element of an array at any depth). -/
inductive Subtree : Json → Json → Prop where
  | refl (j : Json) : Subtree j j
  | obj_mem {t v : Json} {k : String} {fields : Obj} :
      (k, v) ∈ fields → Subtree t v → Subtree t (Json.obj fields)
  | arr_mem {t v : Json} {elems : List Json} :
      v ∈ elems → Subtree t v → Subtree t (Json.arr elems)

/-- What the code collects: some dict node of `j` has a string `$ref` entry
starting with `#/components/schemas/`, and `n` is its last slash-segment. -/
def RefNodeCode (j : Json) (n : String) : Prop :=
  ∃ fields v, Subtree (Json.obj fields) j ∧
    Json.lookup fields "$ref" = some (Json.str v) ∧
    pyStartsWith v schemaRefHead = true ∧ lastSegment v = n

/-- What claim C8 describes: some dict node of `j` has its `$ref` entry equal
to the string `#/components/schemas/N`. -/
def RefNodeExact (j : Json) (n : String) : Prop :=
  ∃ fields, Subtree (Json.obj fields) j ∧
    Json.lookup fields "$ref" = some (Json.str (schemaRefHead ++ n))

theorem subtree_obj_iff (t : Json) (fields : Obj) :
    Subtree t (Json.obj fields) ↔
      t = Json.obj fields ∨ ∃ kv ∈ fields, Subtree t kv.2 := by
  constructor
  · intro h
    cases h with
    | refl => exact Or.inl rfl
    | obj_mem hmem hsub => exact Or.inr ⟨(_, _), hmem, hsub⟩
  · rintro (rfl | ⟨⟨k, v⟩, hmem, hsub⟩)
    · exact Subtree.refl _
    · exact Subtree.obj_mem hmem hsub

theorem subtree_arr_iff (t : Json) (elems : List Json) :
    Subtree t (Json.arr elems) ↔
      t = Json.arr elems ∨ ∃ e ∈ elems, Subtree t e := by
  constructor
  · intro h
    cases h with
    | refl => exact Or.inl rfl
    | arr_mem hmem hsub => exact Or.inr ⟨_, hmem, hsub⟩
  · rintro (rfl | ⟨e, hmem, hsub⟩)
    · exact Subtree.refl _
    · exact Subtree.arr_mem hmem hsub

theorem RefNodeCode_obj_iff (fields : Obj) (n : String) :
    RefNodeCode (Json.obj fields) n ↔
      (∃ v, Json.lookup fields "$ref" = some (Json.str v) ∧
        pyStartsWith v schemaRefHead = true ∧ lastSegment v = n) ∨
      ∃ kv ∈ fields, RefNodeCode kv.2 n := by
  constructor
  · rintro ⟨fs, v, hsub, hl, hs, hn⟩
    rcases (subtree_obj_iff _ _).mp hsub with heq | ⟨kv, hmem, hsub2⟩
    · obtain rfl : fs = fields := Json.obj.injEq .. ▸ heq
      exact Or.inl ⟨v, hl, hs, hn⟩
    · exact Or.inr ⟨kv, hmem, fs, v, hsub2, hl, hs, hn⟩
  · rintro (⟨v, hl, hs, hn⟩ | ⟨kv, hmem, fs, v, hsub, hl, hs, hn⟩)
    · exact ⟨fields, v, Subtree.refl _, hl, hs, hn⟩
    · exact ⟨fs, v, Subtree.obj_mem hmem hsub, hl, hs, hn⟩

theorem RefNodeCode_arr_iff (elems : List Json) (n : String) :
    RefNodeCode (Json.arr elems) n ↔ ∃ e ∈ elems, RefNodeCode e n := by
  constructor
  · rintro ⟨fs, v, hsub, hl, hs, hn⟩
    rcases (subtree_arr_iff _ _).mp hsub with heq | ⟨e, hmem, hsub2⟩
    · cases heq
    · exact ⟨e, hmem, fs, v, hsub2, hl, hs, hn⟩
  · rintro ⟨e, hmem, fs, v, hsub, hl, hs, hn⟩
    exact ⟨fs, v, Subtree.arr_mem hmem hsub, hl, hs, hn⟩

theorem RefNodeCode_null (n : String) : ¬ RefNodeCode Json.null n := by
  rintro ⟨fs, v, hsub, -, -, -⟩
  cases hsub

theorem RefNodeCode_bool (b : Bool) (n : String) : ¬ RefNodeCode (Json.bool b) n := by
  rintro ⟨fs, v, hsub, -, -, -⟩
  cases hsub

theorem RefNodeCode_num (m : Int) (n : String) : ¬ RefNodeCode (Json.num m) n := by
  rintro ⟨fs, v, hsub, -, -, -⟩
  cases hsub

theorem RefNodeCode_str (s : String) (n : String) : ¬ RefNodeCode (Json.str s) n := by
  rintro ⟨fs, v, hsub, -, -, -⟩
  cases hsub

theorem mem_refCheck (fields : Obj) (acc : List String) (n : String) :
    n ∈ refCheck fields acc ↔
      n ∈ acc ∨ (∃ v, Json.lookup fields "$ref" = some (Json.str v) ∧
        pyStartsWith v schemaRefHead = true ∧ lastSegment v = n) := by
  unfold refCheck
  rcases hl : Json.lookup fields "$ref" with _ | v
  · simp [hl]
  · cases v with
    | str s =>
      by_cases hs : pyStartsWith s schemaRefHead
      · simp only [hs, if_pos, mem_insertNew]
        constructor
        · rintro (h | rfl)
          · exact Or.inl h
          · exact Or.inr ⟨s, rfl, hs, rfl⟩
        · rintro (h | ⟨v, hv, hvs, rfl⟩)
          · exact Or.inl h
          · obtain rfl : s = v := by
              exact Json.str.injEq s v ▸ Option.some.inj hv
            exact Or.inr rfl
      · simp only [hs, if_neg, Bool.false_eq_true, not_false_iff]
        constructor
        · exact Or.inl
        · rintro (h | ⟨v, hv, hvs, rfl⟩)
          · exact h
          · obtain rfl : s = v := by
              exact Json.str.injEq s v ▸ Option.some.inj hv
            exact absurd hvs (by simp [hs])
    | null => simp
    | bool b => simp
    | num m => simp
    | arr l => simp
    | obj l => simp

mutual

/-- Membership characterization of the reference extraction: a name is
collected iff it was already in the set or the tree holds a matching
reference node. -/
theorem mem_extract_schema_references (j : Json) (acc : List String) (n : String) :
    n ∈ extract_schema_references j acc ↔ n ∈ acc ∨ RefNodeCode j n := by
  cases j with
  | obj fields =>
    rw [show extract_schema_references (Json.obj fields) acc =
        extractRefsFields fields (refCheck fields acc) from rfl,
      mem_extractRefsFields fields (refCheck fields acc) n,
      mem_refCheck fields acc n, RefNodeCode_obj_iff fields n]
    exact or_assoc
  | arr elems =>
    rw [show extract_schema_references (Json.arr elems) acc =
        extractRefsElems elems acc from rfl,
      mem_extractRefsElems elems acc n, RefNodeCode_arr_iff elems n]
  | null =>
    rw [show extract_schema_references Json.null acc = acc from rfl]
    simp [RefNodeCode_null]
  | bool b =>
    rw [show extract_schema_references (Json.bool b) acc = acc from rfl]
    simp [RefNodeCode_bool]
  | num m =>
    rw [show extract_schema_references (Json.num m) acc = acc from rfl]
    simp [RefNodeCode_num]
  | str s =>
    rw [show extract_schema_references (Json.str s) acc = acc from rfl]
    simp [RefNodeCode_str]
termination_by structural j

/-- Membership characterization of the dict branch of the extraction. -/
theorem mem_extractRefsFields (fs : Obj) (acc : List String) (n : String) :
    n ∈ extractRefsFields fs acc ↔ n ∈ acc ∨ ∃ kv ∈ fs, RefNodeCode kv.2 n := by
  cases fs with
  | nil =>
    rw [show extractRefsFields [] acc = acc from rfl]
    simp
  | cons kv rest =>
    rw [show extractRefsFields (kv :: rest) acc =
        extractRefsFields rest (extract_schema_references kv.2 acc) from rfl,
      mem_extractRefsFields rest _ n,
      mem_extract_schema_references kv.2 acc n]
    constructor
    · rintro ((h | h) | ⟨kv2, hm, h⟩)
      · exact Or.inl h
      · exact Or.inr ⟨kv, List.mem_cons_self _ _, h⟩
      · exact Or.inr ⟨kv2, List.mem_cons_of_mem _ hm, h⟩
    · rintro (h | ⟨kv2, hm, h⟩)
      · exact Or.inl (Or.inl h)
      · rcases List.mem_cons.mp hm with rfl | hm2
        · exact Or.inl (Or.inr h)
        · exact Or.inr ⟨kv2, hm2, h⟩
termination_by structural fs

/-- Membership characterization of the list branch of the extraction. -/
theorem mem_extractRefsElems (es : List Json) (acc : List String) (n : String) :
    n ∈ extractRefsElems es acc ↔ n ∈ acc ∨ ∃ e ∈ es, RefNodeCode e n := by
  cases es with
  | nil =>
    rw [show extractRefsElems [] acc = acc from rfl]
    simp
  | cons e rest =>
    rw [show extractRefsElems (e :: rest) acc =
        extractRefsElems rest (extract_schema_references e acc) from rfl,
      mem_extractRefsElems rest _ n,
      mem_extract_schema_references e acc n]
    constructor
    · rintro ((h | h) | ⟨e2, hm, h⟩)
      · exact Or.inl h
      · exact Or.inr ⟨e, List.mem_cons_self _ _, h⟩
      · exact Or.inr ⟨e2, List.mem_cons_of_mem _ hm, h⟩
    · rintro (h | ⟨e2, hm, h⟩)
      · exact Or.inl (Or.inl h)
      · rcases List.mem_cons.mp hm with rfl | hm2
        · exact Or.inl (Or.inr h)
        · exact Or.inr ⟨e2, hm2, h⟩
termination_by structural es

end

/-! ### Claim C8 -/

/-- A dict node whose `$ref` target has an extra slash segment: the input
separating the code's behaviour from claim C8's description. -/
def slashRefInput : Json := Json.obj [("$ref", Json.str "#/components/schemas/a/b")]

/-- A path-item referencing schema `Order` inside a nested list inside a
`oneOf` block (the spec's own example). -/
def orderPathItem : Json :=
  Json.obj [("post", Json.obj [
    ("requestBody", Json.obj [
      ("content", Json.obj [
        ("application/json", Json.obj [
          ("schema", Json.obj [
            ("oneOf", Json.arr [
              Json.arr [Json.obj [("$ref", Json.str "#/components/schemas/Order")]]])])])])])])]

/-- Counterexample to C8 as stated: the node value `#/components/schemas/a/b`
is the string `#/components/schemas/N` for `N = "a/b"`, yet the code does not
collect `a/b` (it collects the last slash-segment `b` instead). -/
theorem c8_counterexample :
    RefNodeExact slashRefInput "a/b" ∧
    "a/b" ∉ extract_schema_references slashRefInput [] ∧
    extract_schema_references slashRefInput [] = ["b"] := by
  refine ⟨⟨[("$ref", Json.str "#/components/schemas/a/b")], Subtree.refl _, by decide⟩,
    by decide, by decide⟩

/-- C8 (amended).  The extraction walks the whole tree (dict values and list
elements at any depth) and collects exactly the set of last slash-segments of
the string `$ref` values that start with `#/components/schemas/`; on the
spec's example the request-body reference nested in a list inside a `oneOf`
yields exactly `Order`. -/
theorem c8_extract_schema_references_amended :
    (∀ (j : Json) (n : String),
      n ∈ extract_schema_references j [] ↔ RefNodeCode j n) ∧
    extract_schema_references orderPathItem [] = ["Order"] := by
  constructor
  · intro j n
    rw [mem_extract_schema_references j [] n]
    simp
  · decide

/-! ### `group_openapi_paths` (src/app/services/des_completion_service.py) -/

/-- Group-key derivation of `group_openapi_paths`: the first two
slash-delimited segments of the stripped path, a single segment if only one
exists, a default group otherwise. -/
def groupKeyOf (path_string : String) : String :=
  match pySplitSlash (pyStripSlashes path_string) with
  | p0 :: p1 :: _ => "/" ++ p0 ++ "/" ++ p1
  | [p0] => if p0 ≠ "" then "/" ++ p0 else "/default_group"
  | [] => "/default_group"

/-- One subgroup under a group key: its paths dict and the set of schema
names referenced by them. -/
structure PathSubgroup where
  paths : Obj
  schema_names : List String
deriving Repr, DecidableEq

/-- Mutation of the subgroup at index `len - 1` of a group's subgroup list
(the index `group_openapi_paths` always addresses). -/
def modifyLast (f : PathSubgroup → PathSubgroup) : List PathSubgroup → List PathSubgroup
  | [] => []
  | [sg] => [f sg]
  | sg :: rest => sg :: modifyLast f rest

/-- Adding one path to a group's subgroup list: start the first subgroup if
none exists, start a fresh one if the current one already holds 10 paths,
then store the path and accumulate its schema references. -/
def addToSubs (subs : List PathSubgroup) (p : String) (item : Json) : List PathSubgroup :=
  let subs2 :=
    if subs.isEmpty then [{ paths := [], schema_names := [] }]
    else if 10 ≤ (subs.getLastD { paths := [], schema_names := [] }).paths.length
    then subs ++ [{ paths := [], schema_names := [] }]
    else subs
  modifyLast (fun sg =>
    { paths := Json.setKey sg.paths p item,
      schema_names := extract_schema_references item sg.schema_names }) subs2

/-- `groups.setdefault(group_key, [])` followed by the subgroup mutation:
update the entry of the group key in place, appending a new entry at the end
if the key is new (Python dict insertion order). -/
def updateGroup : List (String × List PathSubgroup) → String →
    (List PathSubgroup → List PathSubgroup) → List (String × List PathSubgroup)
  | [], gk, f => [(gk, f [])]
  | (k, subs) :: rest, gk, f =>
    if k = gk then (k, f subs) :: rest else (k, subs) :: updateGroup rest gk f

/-- One iteration of the main loop of `group_openapi_paths`. -/
def groupStep (gs : List (String × List PathSubgroup)) (kv : String × Json) :
    List (String × List PathSubgroup) :=
  updateGroup gs (groupKeyOf kv.1) (fun subs => addToSubs subs kv.1 kv.2)

/-- One output batch: the unique group key (the source dict field
`group_prefix`), the paths dict, and the referenced schema names. -/
structure Batch where
  group_key : String
  paths : Obj
  schema_names : List String
deriving Repr, DecidableEq

/-- The final conversion loop of `group_openapi_paths`: subgroup `i` of a
group keyed `gk` becomes a batch keyed `gk` for `i = 0` and `gk_part(i+1)`
otherwise. -/
def labelSubs (gk : String) : Nat → List PathSubgroup → List Batch
  | _, [] => []
  | i, sg :: rest =>
    { group_key := if i = 0 then gk else gk ++ "_part" ++ toString (i + 1),
      paths := sg.paths, schema_names := sg.schema_names } :: labelSubs gk (i + 1) rest

/-- Flattening of the groups dict into the ordered batch list. -/
def flattenGroups : List (String × List PathSubgroup) → List Batch
  | [] => []
  | (gk, subs) :: rest => labelSubs gk 0 subs ++ flattenGroups rest

/-- `group_openapi_paths` (src/app/services/des_completion_service.py):
group paths by their prefix, capping every subgroup at 10 paths, and collect
the schema names referenced within each subgroup.  The second parameter is
unused, exactly as in the source. -/
def group_openapi_paths (openapi_paths : Obj)
    (openapi_components_schemas : Obj) : List Batch :=
  flattenGroups (openapi_paths.foldl groupStep [])

/-! ### Invariants of `group_openapi_paths` -/

/-- The empty subgroup the algorithm starts fresh subgroups from. -/
def emptySG : PathSubgroup := { paths := [], schema_names := [] }

theorem dropLast_append_getLastD {α : Type} :
    ∀ (l : List α) (d : α), l ≠ [] → l.dropLast ++ [l.getLastD d] = l
  | [x], _, _ => rfl
  | x :: y :: rest, d, _ => by
    rw [List.getLastD_cons d x (y :: rest),
      show (x :: y :: rest).dropLast = x :: (y :: rest).dropLast from rfl,
      List.cons_append, dropLast_append_getLastD (y :: rest) x (by simp)]

theorem getLastD_mem {α : Type} :
    ∀ (l : List α) (d : α), l ≠ [] → l.getLastD d ∈ l
  | [x], _, _ => by
    rw [show [x].getLastD _ = x from rfl]
    exact List.mem_singleton_self x
  | x :: y :: rest, d, _ => by
    rw [List.getLastD_cons d x (y :: rest)]
    exact List.mem_cons_of_mem _ (getLastD_mem (y :: rest) x (by simp))

theorem modifyLast_eq (f : PathSubgroup → PathSubgroup) :
    ∀ (l : List PathSubgroup), l ≠ [] →
      modifyLast f l = l.dropLast ++ [f (l.getLastD emptySG)]
  | [sg], _ => rfl
  | sg :: sg2 :: rest, _ => by
    rw [show modifyLast f (sg :: sg2 :: rest) = sg :: modifyLast f (sg2 :: rest) from rfl,
      modifyLast_eq f (sg2 :: rest) (by simp),
      List.getLastD_cons emptySG sg (sg2 :: rest),
      show (sg :: sg2 :: rest).dropLast = sg :: (sg2 :: rest).dropLast from rfl]
    have : (sg2 :: rest).getLastD sg = (sg2 :: rest).getLastD emptySG := by
      rw [List.getLastD_cons sg sg2 rest, List.getLastD_cons emptySG sg2 rest]
    rw [this, List.cons_append]

theorem modifyLast_append_singleton (f : PathSubgroup → PathSubgroup) :
    ∀ (l : List PathSubgroup) (x : PathSubgroup),
      modifyLast f (l ++ [x]) = l ++ [f x]
  | [], x => rfl
  | [y], x => rfl
  | y :: z :: rest, x => by
    show y :: modifyLast f ((z :: rest) ++ [x]) = y :: ((z :: rest) ++ [f x])
    rw [modifyLast_append_singleton f (z :: rest) x]

/-- `addToSubs` on an empty subgroup list starts the first subgroup. -/
theorem addToSubs_nil (p : String) (item : Json) :
    addToSubs [] p item =
      [{ paths := [(p, item)],
         schema_names := extract_schema_references item [] }] := rfl

/-- `addToSubs` when the current subgroup is full: a fresh subgroup holding
only the new path is appended. -/
theorem addToSubs_full (subs : List PathSubgroup) (p : String) (item : Json)
    (hne : subs ≠ []) (hlen : 10 ≤ (subs.getLastD emptySG).paths.length) :
    addToSubs subs p item = subs ++
      [{ paths := [(p, item)],
         schema_names := extract_schema_references item [] }] := by
  obtain ⟨s, ss, rfl⟩ : ∃ s ss, subs = s :: ss := by
    cases subs with
    | nil => exact absurd rfl hne
    | cons a b => exact ⟨a, b, rfl⟩
  show modifyLast
      (fun sg => { paths := Json.setKey sg.paths p item,
                   schema_names := extract_schema_references item sg.schema_names })
      (if 10 ≤ ((s :: ss).getLastD emptySG).paths.length
       then (s :: ss) ++ [emptySG] else (s :: ss)) = _
  rw [if_pos hlen, modifyLast_append_singleton]
  rfl

/-- `addToSubs` when the current subgroup has room: the path is stored into
it and its schema references accumulated. -/
theorem addToSubs_not_full (subs : List PathSubgroup) (p : String) (item : Json)
    (hne : subs ≠ []) (hlen : ¬ 10 ≤ (subs.getLastD emptySG).paths.length) :
    addToSubs subs p item = subs.dropLast ++
      [{ paths := Json.setKey (subs.getLastD emptySG).paths p item,
         schema_names := extract_schema_references item
           (subs.getLastD emptySG).schema_names }] := by
  obtain ⟨s, ss, rfl⟩ : ∃ s ss, subs = s :: ss := by
    cases subs with
    | nil => exact absurd rfl hne
    | cons a b => exact ⟨a, b, rfl⟩
  show modifyLast
      (fun sg => { paths := Json.setKey sg.paths p item,
                   schema_names := extract_schema_references item sg.schema_names })
      (if 10 ≤ ((s :: ss).getLastD emptySG).paths.length
       then (s :: ss) ++ [emptySG] else (s :: ss)) = _
  rw [if_neg hlen, modifyLast_eq _ (s :: ss) (by simp)]

/-- Occurrences of a key among the paths of one subgroup. -/
def subCount (k : String) (sg : PathSubgroup) : Nat :=
  sg.paths.countP (fun kv => kv.1 == k)

/-- Occurrences of a key among the paths of one group entry. -/
def groupCount (k : String) (g : String × List PathSubgroup) : Nat :=
  (g.2.map (subCount k)).sum

/-- Occurrences of a key among all paths stored in the groups dict. -/
def totalCount (gs : List (String × List PathSubgroup)) (k : String) : Nat :=
  (gs.map (groupCount k)).sum

theorem containsKey_iff_countP_pos (d : Obj) (k : String) :
    containsKey d k = true ↔ 0 < d.countP (fun kv => kv.1 == k) := by
  induction d with
  | nil => simp [containsKey, lookup]
  | cons hd tl ih =>
    obtain ⟨k1, v1⟩ := hd
    by_cases hk : k1 = k
    · subst hk
      simp [containsKey, lookup, List.countP_cons]
    · simp only [containsKey, lookup, hk, if_false, List.countP_cons]
      simpa [containsKey, hk] using ih

theorem countP_setKey_fresh (d : Obj) (p : String) (item : Json) (k : String)
    (h : containsKey d p = false) :
    (setKey d p item).countP (fun kv => kv.1 == k) =
      d.countP (fun kv => kv.1 == k) + (if k = p then 1 else 0) := by
  rw [setKey_eq_append d p item h, List.countP_append]
  by_cases hk : k = p
  · subst hk; simp [List.countP_cons]
  · have hpk : ¬(p = k) := fun hh => hk (Eq.symm hh)
    simp [List.countP_cons, hk, hpk]

/-- Per-group invariant: every subgroup of the group is nonempty, holds at
most 10 paths, and only paths whose derived group key is the group's key. -/
def SubsInv (gk : String) (subs : List PathSubgroup) : Prop :=
  ∀ sg ∈ subs, sg.paths ≠ [] ∧ sg.paths.length ≤ 10 ∧
    ∀ kv ∈ sg.paths, groupKeyOf kv.1 = gk

/-- Invariant of the groups dict of `group_openapi_paths`. -/
def GroupsInv (gs : List (String × List PathSubgroup)) : Prop :=
  ∀ g ∈ gs, g.2 ≠ [] ∧ SubsInv g.1 g.2

theorem containsKey_eq_false_of_not_mem (d : Obj) (k : String)
    (h : ∀ kv ∈ d, kv.1 ≠ k) : containsKey d k = false := by
  induction d with
  | nil => rfl
  | cons hd tl ih =>
    have hhd := h hd (List.mem_cons_self _ _)
    simp only [containsKey, lookup, hhd, if_false]
    exact ih (fun kv hm => h kv (List.mem_cons_of_mem _ hm))

theorem addToSubs_spec (gk : String) (subs : List PathSubgroup) (p : String)
    (item : Json) (hgk : groupKeyOf p = gk) (hinv : SubsInv gk subs)
    (hfresh : (subs.map (subCount p)).sum = 0) :
    addToSubs subs p item ≠ [] ∧ SubsInv gk (addToSubs subs p item) ∧
    (∀ k, ((addToSubs subs p item).map (subCount k)).sum =
      (subs.map (subCount k)).sum + (if k = p then 1 else 0)) := by
  have hfreshAll : ∀ sg ∈ subs, subCount p sg = 0 := by
    intro sg hm
    exact (List.sum_eq_zero_iff.mp hfresh) _ (List.mem_map_of_mem _ hm)
  have hNewInv : ∀ kv ∈ ([(p, item)] : Obj), groupKeyOf kv.1 = gk := by
    intro kv hm
    rcases List.mem_singleton.mp hm with rfl
    exact hgk
  have hNewCount : ∀ k,
      subCount k (PathSubgroup.mk [(p, item)] (extract_schema_references item [])) =
      (if k = p then 1 else 0) := by
    intro k
    by_cases hk : k = p
    · subst hk; simp [subCount, List.countP_cons]
    · have hpk : ¬(p = k) := fun hh => hk (Eq.symm hh)
      simp [subCount, List.countP_cons, hpk, hk]
  rcases List.eq_nil_or_concat subs with rfl | hcons
  · rw [addToSubs_nil]
    refine ⟨by simp, ?_, ?_⟩
    · intro sg hm
      rcases List.mem_singleton.mp hm with rfl
      exact ⟨by simp, by simp, hNewInv⟩
    · intro k
      simp [hNewCount k]
  · have hne : subs ≠ [] := by
      rcases hcons with ⟨l, a, rfl⟩; simp
    by_cases hlen : 10 ≤ (subs.getLastD emptySG).paths.length
    · rw [addToSubs_full subs p item hne hlen]
      refine ⟨by simp, ?_, ?_⟩
      · intro sg hm
        rcases List.mem_append.mp hm with hm | hm
        · exact hinv sg hm
        · rcases List.mem_singleton.mp hm with rfl
          exact ⟨by simp, by simp, hNewInv⟩
      · intro k
        rw [List.map_append, List.sum_append]
        simp [hNewCount k]
    · -- the current last subgroup has room: the path is placed into it
      have hLmem : subs.getLastD emptySG ∈ subs := getLastD_mem subs emptySG hne
      obtain ⟨hLne, hLle, hLkeys⟩ := hinv _ hLmem
      have hLfresh : containsKey (subs.getLastD emptySG).paths p = false := by
        have h0 : subCount p (subs.getLastD emptySG) = 0 := hfreshAll _ hLmem
        rcases hc : containsKey (subs.getLastD emptySG).paths p with _ | _
        · rfl
        · have hpos := (containsKey_iff_countP_pos _ _).mp hc
          rw [show subCount p (subs.getLastD emptySG) =
            List.countP (fun kv => kv.1 == p) (subs.getLastD emptySG).paths from rfl] at h0
          omega
      have happ : Json.setKey (subs.getLastD emptySG).paths p item =
          (subs.getLastD emptySG).paths ++ [(p, item)] :=
        setKey_eq_append _ _ _ hLfresh
      rw [addToSubs_not_full subs p item hne hlen]
      have hsubsdecomp := dropLast_append_getLastD subs emptySG hne
      refine ⟨by simp, ?_, ?_⟩
      · intro sg hm
        rcases List.mem_append.mp hm with hm | hm
        · exact hinv sg ((List.dropLast_prefix subs).subset hm)
        · rcases List.mem_singleton.mp hm with rfl
          refine ⟨by rw [show (PathSubgroup.mk
              (Json.setKey (subs.getLastD emptySG).paths p item)
              (extract_schema_references item
                (subs.getLastD emptySG).schema_names)).paths =
              Json.setKey (subs.getLastD emptySG).paths p item from rfl, happ]; simp, ?_, ?_⟩
          · rw [show (PathSubgroup.mk
                (Json.setKey (subs.getLastD emptySG).paths p item)
                (extract_schema_references item
                  (subs.getLastD emptySG).schema_names)).paths =
                Json.setKey (subs.getLastD emptySG).paths p item from rfl,
              happ, List.length_append]
            simp only [List.length_singleton]
            omega
          · intro kv hkv
            rw [show (PathSubgroup.mk
                (Json.setKey (subs.getLastD emptySG).paths p item)
                (extract_schema_references item
                  (subs.getLastD emptySG).schema_names)).paths =
                Json.setKey (subs.getLastD emptySG).paths p item from rfl,
              happ] at hkv
            rcases List.mem_append.mp hkv with hkv | hkv
            · exact hLkeys kv hkv
            · rcases List.mem_singleton.mp hkv with rfl
              exact hgk
      · intro k
        conv_rhs => rw [← hsubsdecomp]
        rw [List.map_append, List.sum_append, List.map_append, List.sum_append]
        have : subCount k (PathSubgroup.mk
              (Json.setKey (subs.getLastD emptySG).paths p item)
              (extract_schema_references item (subs.getLastD emptySG).schema_names)) =
            subCount k (subs.getLastD emptySG) + (if k = p then 1 else 0) := by
          simp only [subCount, happ]
          rw [List.countP_append]
          by_cases hk : k = p
          · subst hk; simp [List.countP_cons]
          · have hpk : ¬(p = k) := fun hh => hk (Eq.symm hh)
            simp [List.countP_cons, hpk, hk]
        simp only [List.map_singleton, List.sum_singleton, this]
        omega

theorem groupStep_spec (gs : List (String × List PathSubgroup)) (p : String)
    (item : Json) (hinv : GroupsInv gs) (hp : totalCount gs p = 0) :
    GroupsInv (groupStep gs (p, item)) ∧
    ∀ k, totalCount (groupStep gs (p, item)) k =
      totalCount gs k + (if k = p then 1 else 0) := by
  induction gs with
  | nil =>
    have hspec := addToSubs_spec (groupKeyOf p) [] p item rfl
      (by intro sg hm; simp at hm) (by simp)
    constructor
    · intro g hg
      rcases List.mem_singleton.mp hg with rfl
      exact ⟨hspec.1, hspec.2.1⟩
    · intro k
      have := hspec.2.2 k
      simpa [totalCount, groupCount, groupStep, updateGroup] using this
  | cons g0 rest ih =>
    obtain ⟨k0, subs0⟩ := g0
    have h0 := hinv (k0, subs0) (List.mem_cons_self _ _)
    have hrest : GroupsInv rest := fun g hg => hinv g (List.mem_cons_of_mem _ hg)
    have hpsplit : groupCount p (k0, subs0) = 0 ∧ totalCount rest p = 0 := by
      have : groupCount p (k0, subs0) + totalCount rest p = 0 := by
        simpa [totalCount] using hp
      omega
    by_cases hk0 : k0 = groupKeyOf p
    · have hstepEq : groupStep ((k0, subs0) :: rest) (p, item) =
          (k0, addToSubs subs0 p item) :: rest := by
        simp [groupStep, updateGroup, hk0]
      have hspec := addToSubs_spec k0 subs0 p item hk0.symm h0.2
        (by simpa [groupCount] using hpsplit.1)
      rw [hstepEq]
      constructor
      · intro g hg
        rcases List.mem_cons.mp hg with rfl | hg
        · exact ⟨hspec.1, hspec.2.1⟩
        · exact hinv g (List.mem_cons_of_mem _ hg)
      · intro k
        have := hspec.2.2 k
        simp only [totalCount, List.map_cons, List.sum_cons, groupCount] at *
        omega
    · have hstepEq : groupStep ((k0, subs0) :: rest) (p, item) =
          (k0, subs0) :: groupStep rest (p, item) := by
        simp [groupStep, updateGroup, hk0]
      have hih := ih hrest hpsplit.2
      rw [hstepEq]
      constructor
      · intro g hg
        rcases List.mem_cons.mp hg with rfl | hg
        · exact h0
        · exact hih.1 g hg
      · intro k
        have := hih.2 k
        simp only [totalCount, List.map_cons, List.sum_cons] at *
        omega

theorem groupFold_spec (l : Obj) (gs : List (String × List PathSubgroup))
    (hnd : (l.map Prod.fst).Nodup)
    (hdisj : ∀ kv ∈ l, totalCount gs kv.1 = 0) (hinv : GroupsInv gs) :
    GroupsInv (l.foldl groupStep gs) ∧
    ∀ k, totalCount (l.foldl groupStep gs) k =
      totalCount gs k + (if containsKey l k then 1 else 0) := by
  induction l generalizing gs with
  | nil =>
    refine ⟨hinv, fun k => by simp [containsKey, lookup]⟩
  | cons hd rest ih =>
    obtain ⟨p, item⟩ := hd
    simp only [List.map_cons, List.nodup_cons] at hnd
    have hpnotin : ∀ kv ∈ rest, kv.1 ≠ p := by
      intro kv hm hh
      exact hnd.1 (hh ▸ (List.mem_map.mpr ⟨kv, hm, rfl⟩))
    have hstep := groupStep_spec gs p item hinv (hdisj (p, item) (List.mem_cons_self _ _))
    have hdisj2 : ∀ kv ∈ rest, totalCount (groupStep gs (p, item)) kv.1 = 0 := by
      intro kv hm
      rw [hstep.2 kv.1, if_neg (hpnotin kv hm)]
      simpa using hdisj kv (List.mem_cons_of_mem _ hm)
    have hih := ih (groupStep gs (p, item)) hnd.2 hdisj2 hstep.1
    rw [List.foldl_cons]
    refine ⟨hih.1, ?_⟩
    intro k
    rw [hih.2 k, hstep.2 k]
    by_cases hk : p = k
    · subst hk
      have hrest : containsKey rest p = false :=
        containsKey_eq_false_of_not_mem rest p (hpnotin)
      have hlnone : lookup rest p = none := by
        rcases hl : lookup rest p with _ | v
        · rfl
        · rw [show containsKey rest p = (lookup rest p).isSome from rfl, hl] at hrest
          simp at hrest
      simp [containsKey, lookup, hlnone]
    · have : ¬(k = p) := fun hh => hk (Eq.symm hh)
      simp [containsKey, lookup, hk, this]

theorem mem_labelSubs (gk : String) :
    ∀ (i : Nat) (subs : List PathSubgroup) (b : Batch), b ∈ labelSubs gk i subs →
      ∃ sg ∈ subs, b.paths = sg.paths ∧ b.schema_names = sg.schema_names ∧
        (b.group_key = gk ∨ ∃ n, 2 ≤ n ∧ b.group_key = gk ++ "_part" ++ toString n)
  | i, [], b => by intro h; simp [labelSubs] at h
  | i, sg :: rest, b => by
    intro h
    rw [show labelSubs gk i (sg :: rest) =
      { group_key := if i = 0 then gk else gk ++ "_part" ++ toString (i + 1),
        paths := sg.paths, schema_names := sg.schema_names } ::
        labelSubs gk (i + 1) rest from rfl] at h
    rcases List.mem_cons.mp h with rfl | h
    · refine ⟨sg, List.mem_cons_self _ _, rfl, rfl, ?_⟩
      by_cases hi : i = 0
      · subst hi; exact Or.inl rfl
      · refine Or.inr ⟨i + 1, by omega, ?_⟩
        simp [hi]
    · obtain ⟨sg2, hm, h1, h2, h3⟩ := mem_labelSubs gk (i + 1) rest b h
      exact ⟨sg2, List.mem_cons_of_mem _ hm, h1, h2, h3⟩

theorem mem_flattenGroups :
    ∀ (gs : List (String × List PathSubgroup)) (b : Batch), b ∈ flattenGroups gs →
      ∃ g ∈ gs, ∃ sg ∈ g.2, b.paths = sg.paths ∧ b.schema_names = sg.schema_names ∧
        (b.group_key = g.1 ∨ ∃ n, 2 ≤ n ∧ b.group_key = g.1 ++ "_part" ++ toString n)
  | [], b => by intro h; simp [flattenGroups] at h
  | (gk, subs) :: rest, b => by
    intro h
    rw [show flattenGroups ((gk, subs) :: rest) =
      labelSubs gk 0 subs ++ flattenGroups rest from rfl] at h
    rcases List.mem_append.mp h with h | h
    · obtain ⟨sg, hm, h1, h2, h3⟩ := mem_labelSubs gk 0 subs b h
      exact ⟨(gk, subs), List.mem_cons_self _ _, sg, hm, h1, h2, h3⟩
    · obtain ⟨g, hg, sg, hm, h1, h2, h3⟩ := mem_flattenGroups rest b h
      exact ⟨g, List.mem_cons_of_mem _ hg, sg, hm, h1, h2, h3⟩

theorem countP_labelSubs (gk : String) (k : String) :
    ∀ (i : Nat) (subs : List PathSubgroup),
      (∀ sg ∈ subs, subCount k sg ≤ 1) →
      (labelSubs gk i subs).countP (fun b => containsKey b.paths k) =
        (subs.map (subCount k)).sum
  | i, [] => by intro h; rfl
  | i, sg :: rest => by
    intro h
    rw [show labelSubs gk i (sg :: rest) =
      { group_key := if i = 0 then gk else gk ++ "_part" ++ toString (i + 1),
        paths := sg.paths, schema_names := sg.schema_names } ::
        labelSubs gk (i + 1) rest from rfl]
    rw [List.countP_cons,
      countP_labelSubs gk k (i + 1) rest (fun s hm => h s (List.mem_cons_of_mem _ hm))]
    have hle := h sg (List.mem_cons_self _ _)
    have hcases : subCount k sg = 0 ∨ subCount k sg = 1 := by omega
    have hone : (if containsKey sg.paths k = true then 1 else 0) = subCount k sg := by
      rcases hcases with h0 | h1
      · have : containsKey sg.paths k = false := by
          rcases hc : containsKey sg.paths k with _ | _
          · rfl
          · have hpos := (containsKey_iff_countP_pos _ _).mp hc
            rw [show subCount k sg =
              List.countP (fun kv => kv.1 == k) sg.paths from rfl] at h0
            omega
        simp [this, h0]
      · have : containsKey sg.paths k = true := by
          apply (containsKey_iff_countP_pos _ _).mpr
          rw [show subCount k sg =
            List.countP (fun kv => kv.1 == k) sg.paths from rfl] at h1
          omega
        simp [this, h1]
    simp only [List.map_cons, List.sum_cons]
    omega

theorem countP_flattenGroups (k : String) :
    ∀ (gs : List (String × List PathSubgroup)),
      (∀ g ∈ gs, ∀ sg ∈ g.2, subCount k sg ≤ 1) →
      (flattenGroups gs).countP (fun b => containsKey b.paths k) = totalCount gs k
  | [] => by intro h; rfl
  | (gk, subs) :: rest => by
    intro h
    rw [show flattenGroups ((gk, subs) :: rest) =
      labelSubs gk 0 subs ++ flattenGroups rest from rfl]
    rw [List.countP_append,
      countP_labelSubs gk k 0 subs (h (gk, subs) (List.mem_cons_self _ _)),
      countP_flattenGroups k rest (fun g hg => h g (List.mem_cons_of_mem _ hg))]
    simp [totalCount, groupCount]

theorem subCount_le_totalCount (gs : List (String × List PathSubgroup))
    (k : String) (g : String × List PathSubgroup) (sg : PathSubgroup)
    (hg : g ∈ gs) (hsg : sg ∈ g.2) :
    subCount k sg ≤ totalCount gs k := by
  have h1 : subCount k sg ≤ groupCount k g := by
    apply List.single_le_sum (fun x _ => Nat.zero_le x)
    exact List.mem_map_of_mem _ hsg
  have h2 : groupCount k g ≤ totalCount gs k := by
    apply List.single_le_sum (fun x _ => Nat.zero_le x)
    exact List.mem_map_of_mem _ hg
  omega

/-- The shared specification of `group_openapi_paths`: the batch list
partitions the input keys (each input key is in exactly one batch), every
batch holds between 1 and 10 paths, and every batch's key is its paths'
derived group key, possibly with a `_partN` suffix (`N ≥ 2`). -/
theorem group_openapi_paths_spec (input cs : Obj)
    (hnd : (input.map Prod.fst).Nodup) :
    (∀ k, (group_openapi_paths input cs).countP (fun b => containsKey b.paths k) =
       if containsKey input k then 1 else 0) ∧
    ∀ b ∈ group_openapi_paths input cs,
      b.paths ≠ [] ∧ b.paths.length ≤ 10 ∧
      ∀ kv ∈ b.paths, b.group_key = groupKeyOf kv.1 ∨
        ∃ n, 2 ≤ n ∧ b.group_key = groupKeyOf kv.1 ++ "_part" ++ toString n := by
  have hfold := groupFold_spec input [] hnd
    (by intro kv hm; rfl) (by intro g hg; simp at hg)
  have hcount : ∀ k, totalCount (input.foldl groupStep []) k =
      if containsKey input k then 1 else 0 := by
    intro k
    have := hfold.2 k
    simpa [totalCount] using this
  constructor
  · intro k
    rw [show group_openapi_paths input cs =
      flattenGroups (input.foldl groupStep []) from rfl]
    rw [countP_flattenGroups k _ ?hle, hcount k]
    case hle =>
      intro g hg sg hsg
      have := subCount_le_totalCount (input.foldl groupStep []) k g sg hg hsg
      rw [hcount k] at this
      by_cases hc : containsKey input k = true
      · rw [if_pos hc] at this; omega
      · rw [if_neg hc] at this; omega
  · intro b hb
    obtain ⟨g, hg, sg, hsg, hpaths, hnames, hkey⟩ :=
      mem_flattenGroups (input.foldl groupStep []) b hb
    obtain ⟨hne, hle, hkeys⟩ := hfold.1 g hg |>.2 sg hsg
    refine ⟨hpaths ▸ hne, hpaths ▸ hle, ?_⟩
    intro kv hkv
    have hkv2 : kv ∈ sg.paths := hpaths ▸ hkv
    have := hkeys kv hkv2
    rcases hkey with h | ⟨n, hn, h⟩
    · exact Or.inl (h.trans this.symm)
    · exact Or.inr ⟨n, hn, h.trans (by rw [this])⟩

/-! ### Claim C6 and C10 -/

/-- 25 distinct paths sharing the prefix `/v1/users`. -/
def paths25 : Obj :=
  (List.range 25).map (fun i => ("/v1/users/item" ++ toString i, Json.null))

/-- C6.  Group keys are derived from the first two slash-segments of each
path (`groupKeyOf`), subgroups are capped at 10 paths with keys
`key`, `key_part2`, `key_part3`, …, and 25 paths sharing the prefix
`/v1/users` yield exactly three batches of sizes 10, 10 and 5 with keys
`/v1/users`, `/v1/users_part2`, `/v1/users_part3`. -/
theorem c6_group_openapi_paths :
    ((group_openapi_paths paths25 []).map (fun b => (b.group_key, b.paths.length)) =
      [("/v1/users", 10), ("/v1/users_part2", 10), ("/v1/users_part3", 5)]) ∧
    (∀ (input cs : Obj), (input.map Prod.fst).Nodup →
      ∀ b ∈ group_openapi_paths input cs, b.paths.length ≤ 10) ∧
    (∀ (input cs : Obj), (input.map Prod.fst).Nodup →
      ∀ b ∈ group_openapi_paths input cs, ∀ kv ∈ b.paths,
        b.group_key = groupKeyOf kv.1 ∨
        ∃ n, 2 ≤ n ∧ b.group_key = groupKeyOf kv.1 ++ "_part" ++ toString n) := by
  refine ⟨by decide, ?_, ?_⟩
  · intro input cs hnd b hb
    exact ((group_openapi_paths_spec input cs hnd).2 b hb).2.1
  · intro input cs hnd b hb kv hkv
    exact ((group_openapi_paths_spec input cs hnd).2 b hb).2.2 kv hkv

/-- Witness for C6 at the 25-path input. -/
theorem c6_group_openapi_paths_witness :
    (paths25.map Prod.fst).Nodup ∧
    ∀ b ∈ group_openapi_paths paths25 [], b.paths.length ≤ 10 :=
  ⟨by decide, fun b hb => c6_group_openapi_paths.2.1 paths25 [] (by decide) b hb⟩

/-- C10.  The batches of `group_openapi_paths` partition the input keys:
every input path key lies in the paths dict of exactly one batch, no batch
holds a key absent from the input, and every batch holds between 1 and 10
paths. -/
theorem c10_batches_partition (input cs : Obj) (k : String)
    (hnd : (input.map Prod.fst).Nodup) :
    ((group_openapi_paths input cs).countP (fun b => containsKey b.paths k) =
      if containsKey input k then 1 else 0) ∧
    ∀ b ∈ group_openapi_paths input cs,
      1 ≤ b.paths.length ∧ b.paths.length ≤ 10 := by
  refine ⟨(group_openapi_paths_spec input cs hnd).1 k, ?_⟩
  intro b hb
  obtain ⟨hne, hle, -⟩ := (group_openapi_paths_spec input cs hnd).2 b hb
  exact ⟨List.length_pos.mpr hne, hle⟩

/-- Witness for C10 at the 25-path input: the key `/v1/users/item3` lies in
exactly one batch. -/
theorem c10_batches_partition_witness :
    ((group_openapi_paths paths25 []).countP
      (fun b => containsKey b.paths "/v1/users/item3") = 1) ∧
    ∀ b ∈ group_openapi_paths paths25 [],
      1 ≤ b.paths.length ∧ b.paths.length ≤ 10 := by
  have h := c10_batches_partition paths25 [] "/v1/users/item3" (by decide)
  refine ⟨?_, h.2⟩
  rw [h.1]
  decide

/-! ## `merge_descriptions` (src/app/services/orchestration_service.py) -/

/-- The content-type loop shared by the requestBody and response branches of
`merge_descriptions`: copy each previous content-type description into the
current content map when the same content-type exists there without one. -/
def mergeContentTypes (prevContent : Obj) (curContent : Obj) : Obj :=
  prevContent.foldl
    (fun cur ct =>
      match Json.lookup cur ct.1 with
      | some (Json.obj curCFs) =>
        (match Json.lookup (Json.asObj ct.2) "description" with
         | some d =>
           if Json.containsKey curCFs "description" then cur
           else Json.setKey cur ct.1 (Json.obj (Json.setKey curCFs "description" d))
         | none => cur)
      | some _ => cur
      | none => cur)
    curContent

/-- The inner parameter loop of `merge_descriptions`: for a current parameter
with a truthy name, the first previous parameter of the same name carrying a
description supplies it when the current parameter has none. -/
def mergeParam (prevParams : List Json) (param : Json) : Json :=
  match Json.lookup (Json.asObj param) "name" with
  | some nameVal =>
    if Json.pyTruthy nameVal then
      prevParams.foldl
        (fun p prevParam =>
          match Json.lookup (Json.asObj prevParam) "name" with
          | some pn =>
            if pn = nameVal then
              match Json.lookup (Json.asObj prevParam) "description" with
              | some d =>
                (match p with
                 | Json.obj pFs =>
                   if Json.containsKey pFs "description" then p
                   else Json.obj (Json.setKey pFs "description" d)
                 | _ => p)
              | none => p
            else p
          | none => p)
        param
    else param
  | none => param

/-- The requestBody branch: top-level description, then per-content-type
descriptions. -/
def mergeRequestBody (prevRB : Json) (curRB : Json) : Json :=
  let cur1 :=
    match Json.lookup (Json.asObj prevRB) "description", curRB with
    | some d, Json.obj curFs =>
      if Json.containsKey curFs "description" then curRB
      else Json.obj (Json.setKey curFs "description" d)
    | _, _ => curRB
  match Json.lookup (Json.asObj prevRB) "content", cur1 with
  | some prevC, Json.obj cur1Fs =>
    (match Json.lookup cur1Fs "content" with
     | some (Json.obj curCFs) =>
       Json.obj (Json.setKey cur1Fs "content"
         (Json.obj (mergeContentTypes (Json.asObj prevC) curCFs)))
     | _ => cur1)
  | _, _ => cur1

/-- The per-status-code response branch: the previous description is copied
when the current one is missing or is the generic default `"OK"`, then the
per-content-type descriptions. -/
def mergeResponse (prevResp : Json) (curResp : Json) : Json :=
  let cur1 :=
    match Json.lookup (Json.asObj prevResp) "description", curResp with
    | some d, Json.obj curFs =>
      if Json.containsKey curFs "description" = false ∨
          Json.lookup curFs "description" = some (Json.str "OK")
      then Json.obj (Json.setKey curFs "description" d)
      else curResp
    | _, _ => curResp
  match Json.lookup (Json.asObj prevResp) "content", cur1 with
  | some prevC, Json.obj cur1Fs =>
    (match Json.lookup cur1Fs "content" with
     | some (Json.obj curCFs) =>
       Json.obj (Json.setKey cur1Fs "content"
         (Json.obj (mergeContentTypes (Json.asObj prevC) curCFs)))
     | _ => cur1)
  | _, _ => cur1

/-- The loop over the previous responses dict. -/
def mergeResponses (prevResponses : Obj) (curResponses : Obj) : Obj :=
  prevResponses.foldl
    (fun cur sc =>
      match Json.lookup cur sc.1 with
      | some curResp => Json.setKey cur sc.1 (mergeResponse sc.2 curResp)
      | none => cur)
    curResponses

/-- Operation step 1: the operation description is copied only when the
current operation has none. -/
def opDescStep (prevOp cur : Json) : Json :=
  match Json.lookup (Json.asObj prevOp) "description", cur with
  | some d, Json.obj curFs =>
    if Json.containsKey curFs "description" then cur
    else Json.obj (Json.setKey curFs "description" d)
  | _, _ => cur

/-- Operation step 2: parameter descriptions (both sides must carry a
`parameters` entry; the current one must be a list for Python to enumerate
it as parameters). -/
def opParamsStep (prevOp cur : Json) : Json :=
  match Json.lookup (Json.asObj prevOp) "parameters", cur with
  | some prevPs, Json.obj curFs =>
    (match Json.lookup curFs "parameters" with
     | some (Json.arr curList) =>
       Json.obj (Json.setKey curFs "parameters"
         (Json.arr (curList.map (mergeParam (Json.asArr prevPs)))))
     | _ => cur)
  | _, _ => cur

/-- Operation step 3: requestBody descriptions. -/
def opRequestBodyStep (prevOp cur : Json) : Json :=
  match Json.lookup (Json.asObj prevOp) "requestBody", cur with
  | some prevRB, Json.obj curFs =>
    (match Json.lookup curFs "requestBody" with
     | some curRB =>
       Json.obj (Json.setKey curFs "requestBody" (mergeRequestBody prevRB curRB))
     | none => cur)
  | _, _ => cur

/-- Operation step 4: response descriptions. -/
def opResponsesStep (prevOp cur : Json) : Json :=
  match Json.lookup (Json.asObj prevOp) "responses", cur with
  | some prevResps, Json.obj curFs =>
    (match Json.lookup curFs "responses" with
     | some (Json.obj curRespFs) =>
       Json.obj (Json.setKey curFs "responses"
         (Json.obj (mergeResponses (Json.asObj prevResps) curRespFs)))
     | _ => cur)
  | _, _ => cur

/-- The per-method body of the paths loop of `merge_descriptions`, i.e. the
four description-merging steps in source order. -/
def mergeOperation (prevOp curOp : Json) : Json :=
  opResponsesStep prevOp (opRequestBodyStep prevOp (opParamsStep prevOp
    (opDescStep prevOp curOp)))

/-- One iteration of the loop over the methods of one previous path item. -/
def pathItemStep (cur : Json) (mkv : String × Json) : Json :=
  match cur with
  | Json.obj curFs =>
    (match Json.lookup curFs mkv.1 with
     | some curOp =>
       Json.obj (Json.setKey curFs mkv.1 (mergeOperation mkv.2 curOp))
     | none => cur)
  | _ => cur

/-- The loop over the methods of one previous path item. -/
def mergePathItem (prevItem : Json) (curItem : Json) : Json :=
  (Json.asObj prevItem).foldl pathItemStep curItem

/-- One iteration of the loop over the previous paths dict. -/
def pathsStep (cur : Obj) (pkv : String × Json) : Obj :=
  match Json.lookup cur pkv.1 with
  | some curItem => Json.setKey cur pkv.1 (mergePathItem pkv.2 curItem)
  | none => cur

/-- The loop over the previous paths dict. -/
def mergePaths (prevPaths : Obj) (curPaths : Obj) : Obj :=
  prevPaths.foldl pathsStep curPaths

/-- Property-level schema description merging. -/
def mergeSchemaProperties (prevProps : Obj) (curProps : Obj) : Obj :=
  prevProps.foldl
    (fun cur pkv =>
      match Json.lookup cur pkv.1 with
      | some (Json.obj curPropFs) =>
        (match Json.lookup (Json.asObj pkv.2) "description" with
         | some d =>
           if Json.containsKey curPropFs "description" then cur
           else Json.setKey cur pkv.1 (Json.obj (Json.setKey curPropFs "description" d))
         | none => cur)
      | some _ => cur
      | none => cur)
    curProps

/-- Schema step 1: the schema-level description. -/
def schemaDescStep (prevSchema cur : Json) : Json :=
  match Json.lookup (Json.asObj prevSchema) "description", cur with
  | some d, Json.obj curFs =>
    if Json.containsKey curFs "description" then cur
    else Json.obj (Json.setKey curFs "description" d)
  | _, _ => cur

/-- Schema step 2: the property-level descriptions. -/
def schemaPropsStep (prevSchema cur : Json) : Json :=
  match Json.lookup (Json.asObj prevSchema) "properties", cur with
  | some prevProps, Json.obj curFs =>
    (match Json.lookup curFs "properties" with
     | some (Json.obj curPropFs) =>
       Json.obj (Json.setKey curFs "properties"
         (Json.obj (mergeSchemaProperties (Json.asObj prevProps) curPropFs)))
     | _ => cur)
  | _, _ => cur

/-- The per-schema body of the schemas loop. -/
def mergeSchema (prevSchema curSchema : Json) : Json :=
  schemaPropsStep prevSchema (schemaDescStep prevSchema curSchema)

/-- One iteration of the loop over the previous schemas dict. -/
def schemasStep (cur : Obj) (skv : String × Json) : Obj :=
  match Json.lookup cur skv.1 with
  | some curSchema => Json.setKey cur skv.1 (mergeSchema skv.2 curSchema)
  | none => cur

/-- The loop over the previous schemas dict. -/
def mergeSchemas (prevSchemas : Obj) (curSchemas : Obj) : Obj :=
  prevSchemas.foldl schemasStep curSchemas

/-- The paths section of `merge_descriptions` (guarded by `'paths' in
previous_spec and 'paths' in result`). -/
def mergePathsSection (previous_spec : Json) (result : Json) : Json :=
  match Json.lookup (Json.asObj previous_spec) "paths", result with
  | some prevPaths, Json.obj curFs =>
    (match Json.lookup curFs "paths" with
     | some (Json.obj curPaths) =>
       Json.obj (Json.setKey curFs "paths"
         (Json.obj (mergePaths (Json.asObj prevPaths) curPaths)))
     | _ => result)
  | _, _ => result

/-- Python `d.setdefault(k, {})` restricted to its effect on the dict: the
key is bound to an empty dict when absent. -/
def ensureKey (fs : Obj) (k : String) : Obj :=
  if Json.containsKey fs k then fs else Json.setKey fs k (Json.obj [])

/-- The components/schemas section of `merge_descriptions`, including the
`result.setdefault("components", {}).setdefault("schemas", {})` mutation. -/
def mergeSchemasSection (previous_spec : Json) (result : Json) : Json :=
  match Json.lookup (Json.asObj previous_spec) "components" with
  | some prevComponents =>
    (match Json.lookup (Json.asObj prevComponents) "schemas" with
     | some prevSchemas =>
       (match result with
        | Json.obj r1Fs =>
          (match Json.lookup (ensureKey r1Fs "components") "components" with
           | some (Json.obj compFs) =>
             (match Json.lookup (ensureKey compFs "schemas") "schemas" with
              | some (Json.obj curSchemas) =>
                Json.obj (Json.setKey (ensureKey r1Fs "components") "components"
                  (Json.obj (Json.setKey (ensureKey compFs "schemas") "schemas"
                    (Json.obj (mergeSchemas (Json.asObj prevSchemas) curSchemas)))))
              | _ => Json.obj (ensureKey r1Fs "components"))
           | _ => Json.obj (ensureKey r1Fs "components"))
        | _ => result)
     | none => result)
  | none => result

/-- `merge_descriptions` (src/app/services/orchestration_service.py): merge
the description fields of the previous specification into the current one,
preserving structural changes but keeping existing descriptions. -/
def merge_descriptions (previous_spec : Json) (current_spec : Json) : Json :=
  if Json.pyTruthy previous_spec = false then current_spec
  else mergeSchemasSection previous_spec (mergePathsSection previous_spec current_spec)

/-! ### Observation accessors for `merge_descriptions` -/

theorem exists_obj_of_lookup {j : Json} {k : String} {v : Json}
    (h : Json.lookup (Json.asObj j) k = some v) : ∃ fs, j = Json.obj fs := by
  cases j with
  | obj fs => exact ⟨fs, rfl⟩
  | null => simp [Json.asObj, Json.lookup] at h
  | bool b => simp [Json.asObj, Json.lookup] at h
  | num n => simp [Json.asObj, Json.lookup] at h
  | str s => simp [Json.asObj, Json.lookup] at h
  | arr l => simp [Json.asObj, Json.lookup] at h

/-- The path item stored at a path key. -/
def pathItemOf (spec : Json) (pk : String) : Option Json :=
  match Json.lookup (Json.asObj spec) "paths" with
  | some ps => Json.lookup (Json.asObj ps) pk
  | none => none

/-- The description of the operation at a method of a path item. -/
def opDescInItem (item : Json) (m : String) : Option Json :=
  match Json.lookup (Json.asObj item) m with
  | some op => Json.lookup (Json.asObj op) "description"
  | none => none

/-- The description of the operation at path `pk`, method `m`. -/
def operationDescription (spec : Json) (pk m : String) : Option Json :=
  match pathItemOf spec pk with
  | some item => opDescInItem item m
  | none => none

/-- The description of the schema stored at a name of a schema table. -/
def schemaDescInTable (tbl : Obj) (name : String) : Option Json :=
  match Json.lookup tbl name with
  | some sch => Json.lookup (Json.asObj sch) "description"
  | none => none

/-- The component-schemas table of a specification. -/
def schemaTableOf (spec : Json) : Option Json :=
  match Json.lookup (Json.asObj spec) "components" with
  | some c => Json.lookup (Json.asObj c) "schemas"
  | none => none

/-- The description of the component schema named `name`. -/
def schemaDescription (spec : Json) (name : String) : Option Json :=
  match schemaTableOf spec with
  | some tbl => schemaDescInTable (Json.asObj tbl) name
  | none => none

/-! ### No existing description is overwritten -/

theorem opDescStep_of_present (prevOp cur : Json) (d : Json)
    (h : Json.lookup (Json.asObj cur) "description" = some d) :
    opDescStep prevOp cur = cur := by
  obtain ⟨curFs, rfl⟩ := exists_obj_of_lookup h
  unfold opDescStep
  rcases Json.lookup (Json.asObj prevOp) "description" with _ | d2
  · rfl
  · simp only [Json.asObj] at h
    simp [Json.containsKey, h]

theorem lookup_opParamsStep_desc (prevOp cur : Json) :
    Json.lookup (Json.asObj (opParamsStep prevOp cur)) "description" =
    Json.lookup (Json.asObj cur) "description" := by
  unfold opParamsStep
  split
  · split
    · exact Json.lookup_setKey_ne _ "parameters" "description" _ (by decide)
    · rfl
  · rfl

theorem lookup_opRequestBodyStep_desc (prevOp cur : Json) :
    Json.lookup (Json.asObj (opRequestBodyStep prevOp cur)) "description" =
    Json.lookup (Json.asObj cur) "description" := by
  unfold opRequestBodyStep
  split
  · split
    · exact Json.lookup_setKey_ne _ "requestBody" "description" _ (by decide)
    · rfl
  · rfl

theorem lookup_opResponsesStep_desc (prevOp cur : Json) :
    Json.lookup (Json.asObj (opResponsesStep prevOp cur)) "description" =
    Json.lookup (Json.asObj cur) "description" := by
  unfold opResponsesStep
  split
  · split
    · exact Json.lookup_setKey_ne _ "responses" "description" _ (by decide)
    · rfl
  · rfl

/-- A present operation description survives `mergeOperation` unchanged. -/
theorem mergeOperation_desc (prevOp curOp : Json) (d : Json)
    (h : Json.lookup (Json.asObj curOp) "description" = some d) :
    Json.lookup (Json.asObj (mergeOperation prevOp curOp)) "description" = some d := by
  unfold mergeOperation
  rw [lookup_opResponsesStep_desc, lookup_opRequestBodyStep_desc,
    lookup_opParamsStep_desc, opDescStep_of_present prevOp curOp d h, h]

/-- A present operation description survives the whole method loop. -/
theorem mergePathItem_pres (prevItem curItem : Json) (m : String) (d : Json)
    (h : opDescInItem curItem m = some d) :
    opDescInItem (mergePathItem prevItem curItem) m = some d := by
  unfold mergePathItem
  generalize Json.asObj prevItem = l
  induction l generalizing curItem with
  | nil => exact h
  | cons mkv rest ih =>
    rw [List.foldl_cons]
    apply ih
    unfold pathItemStep
    split
    · rename_i curFs
      split
      · rename_i curOp hlk
        unfold opDescInItem
        by_cases hm : mkv.1 = m
        · subst hm
          rw [show Json.asObj (Json.obj (Json.setKey curFs mkv.1
              (mergeOperation mkv.2 curOp))) = Json.setKey curFs mkv.1
              (mergeOperation mkv.2 curOp) from rfl,
            Json.lookup_setKey_self]
          unfold opDescInItem at h
          rw [show Json.asObj (Json.obj curFs) = curFs from rfl, hlk] at h
          exact mergeOperation_desc mkv.2 curOp d h
        · rw [show Json.asObj (Json.obj (Json.setKey curFs mkv.1
              (mergeOperation mkv.2 curOp))) = Json.setKey curFs mkv.1
              (mergeOperation mkv.2 curOp) from rfl,
            Json.lookup_setKey_ne curFs mkv.1 m _ (fun hh => hm (Eq.symm hh))]
          unfold opDescInItem at h
          exact h
      · exact h
    · exact h

/-- The operation description seen through a paths dict. -/
def opDescInPaths (ps : Obj) (pk m : String) : Option Json :=
  match Json.lookup ps pk with
  | some item => opDescInItem item m
  | none => none

theorem opDescInPaths_setKey_self (ps : Obj) (pk m : String) (item : Json) :
    opDescInPaths (Json.setKey ps pk item) pk m = opDescInItem item m := by
  unfold opDescInPaths
  rw [Json.lookup_setKey_self]

theorem opDescInPaths_setKey_ne (ps : Obj) (k pk m : String) (item : Json)
    (h : pk ≠ k) :
    opDescInPaths (Json.setKey ps k item) pk m = opDescInPaths ps pk m := by
  unfold opDescInPaths
  rw [Json.lookup_setKey_ne _ _ _ _ h]

theorem pathsStep_pres (curPaths : Obj) (pkv : String × Json) (pk m : String)
    (d : Json) (h : opDescInPaths curPaths pk m = some d) :
    opDescInPaths (pathsStep curPaths pkv) pk m = some d := by
  unfold pathsStep
  rcases hlk : Json.lookup curPaths pkv.1 with _ | curItem
  · exact h
  · show opDescInPaths (Json.setKey curPaths pkv.1 (mergePathItem pkv.2 curItem)) pk m =
      some d
    by_cases hp : pkv.1 = pk
    · subst hp
      rw [opDescInPaths_setKey_self]
      unfold opDescInPaths at h
      rw [hlk] at h
      exact mergePathItem_pres pkv.2 curItem m d h
    · rw [opDescInPaths_setKey_ne curPaths pkv.1 pk m _ (fun hh => hp (Eq.symm hh))]
      exact h

/-- A present operation description survives the whole paths loop. -/
theorem mergePaths_pres (prevPaths curPaths : Obj) (pk m : String) (d : Json)
    (h : opDescInPaths curPaths pk m = some d) :
    opDescInPaths (mergePaths prevPaths curPaths) pk m = some d := by
  unfold mergePaths
  induction prevPaths generalizing curPaths with
  | nil => exact h
  | cons pkv rest ih =>
    rw [List.foldl_cons]
    exact ih (pathsStep curPaths pkv) (pathsStep_pres curPaths pkv pk m d h)

theorem schemaDescStep_of_present (prevSchema cur : Json) (d : Json)
    (h : Json.lookup (Json.asObj cur) "description" = some d) :
    schemaDescStep prevSchema cur = cur := by
  obtain ⟨curFs, rfl⟩ := exists_obj_of_lookup h
  unfold schemaDescStep
  rcases Json.lookup (Json.asObj prevSchema) "description" with _ | d2
  · rfl
  · simp only [Json.asObj] at h
    simp [Json.containsKey, h]

theorem lookup_schemaPropsStep_desc (prevSchema cur : Json) :
    Json.lookup (Json.asObj (schemaPropsStep prevSchema cur)) "description" =
    Json.lookup (Json.asObj cur) "description" := by
  unfold schemaPropsStep
  split
  · split
    · exact Json.lookup_setKey_ne _ "properties" "description" _ (by decide)
    · rfl
  · rfl

/-- A present schema description survives `mergeSchema` unchanged. -/
theorem mergeSchema_desc (prevSchema curSchema : Json) (d : Json)
    (h : Json.lookup (Json.asObj curSchema) "description" = some d) :
    Json.lookup (Json.asObj (mergeSchema prevSchema curSchema)) "description" = some d := by
  unfold mergeSchema
  rw [lookup_schemaPropsStep_desc, schemaDescStep_of_present prevSchema curSchema d h, h]

/-- A present schema description survives the whole schemas loop. -/
theorem mergeSchemas_pres (prevSchemas curSchemas : Obj) (name : String) (d : Json)
    (h : schemaDescInTable curSchemas name = some d) :
    schemaDescInTable (mergeSchemas prevSchemas curSchemas) name = some d := by
  unfold mergeSchemas
  induction prevSchemas generalizing curSchemas with
  | nil => exact h
  | cons skv rest ih =>
    rw [List.foldl_cons]
    apply ih
    unfold schemasStep
    split
    · rename_i curSchema hlk
      unfold schemaDescInTable
      by_cases hn : skv.1 = name
      · subst hn
        rw [Json.lookup_setKey_self]
        unfold schemaDescInTable at h
        rw [hlk] at h
        exact mergeSchema_desc skv.2 curSchema d h
      · rw [Json.lookup_setKey_ne curSchemas skv.1 name _ (fun hh => hn (Eq.symm hh))]
        exact h
    · exact h

theorem lookup_ensureKey_ne (fs : Obj) (k k2 : String) (h : k2 ≠ k) :
    Json.lookup (ensureKey fs k) k2 = Json.lookup fs k2 := by
  unfold ensureKey
  split
  · rfl
  · exact Json.lookup_setKey_ne fs k k2 (Json.obj []) h

theorem ensureKey_of_contains (fs : Obj) (k : String)
    (h : Json.containsKey fs k = true) : ensureKey fs k = fs := by
  unfold ensureKey
  rw [if_pos h]

/-- The whole operation-description observation depends only on the value
bound to `paths`. -/
theorem operationDescription_eq (spec : Json) (pk m : String) :
    operationDescription spec pk m =
      (match Json.lookup (Json.asObj spec) "paths" with
       | some ps => opDescInPaths (Json.asObj ps) pk m
       | none => none) := by
  unfold operationDescription pathItemOf opDescInPaths
  rcases Json.lookup (Json.asObj spec) "paths" with _ | ps
  · rfl
  · rcases Json.lookup (Json.asObj ps) pk with _ | item <;> rfl

/-- A present operation description survives the paths section. -/
theorem mergePathsSection_opDesc (prev cur : Json) (pk m : String) (d : Json)
    (h : operationDescription cur pk m = some d) :
    operationDescription (mergePathsSection prev cur) pk m = some d := by
  unfold mergePathsSection
  split
  · rename_i prevPaths curFs hpl
    split
    · rename_i curPaths hlk
      rw [operationDescription_eq,
        show Json.asObj (Json.obj (Json.setKey curFs "paths"
          (Json.obj (mergePaths (Json.asObj prevPaths) curPaths)))) =
          Json.setKey curFs "paths"
            (Json.obj (mergePaths (Json.asObj prevPaths) curPaths)) from rfl,
        Json.lookup_setKey_self]
      show opDescInPaths (mergePaths (Json.asObj prevPaths) curPaths) pk m = some d
      apply mergePaths_pres
      rw [operationDescription_eq, show Json.asObj (Json.obj curFs) = curFs from rfl,
        hlk] at h
      exact h
    · exact h
  · exact h

/-- The schemas section leaves the `paths` entry untouched. -/
theorem lookup_mergeSchemasSection_paths (prev r : Json) :
    Json.lookup (Json.asObj (mergeSchemasSection prev r)) "paths" =
    Json.lookup (Json.asObj r) "paths" := by
  unfold mergeSchemasSection
  split
  · split
    · split
      · rename_i r1Fs
        split
        · split
          · show Json.lookup (Json.setKey (ensureKey r1Fs "components") "components" _)
                "paths" = _
            rw [Json.lookup_setKey_ne _ _ _ _ (by decide),
              lookup_ensureKey_ne r1Fs "components" "paths" (by decide)]
            rfl
          · show Json.lookup (ensureKey r1Fs "components") "paths" = _
            rw [lookup_ensureKey_ne r1Fs "components" "paths" (by decide)]
            rfl
        · show Json.lookup (ensureKey r1Fs "components") "paths" = _
          rw [lookup_ensureKey_ne r1Fs "components" "paths" (by decide)]
          rfl
      · rfl
    · rfl
  · rfl

/-- The paths section leaves the `components` entry untouched. -/
theorem lookup_mergePathsSection_components (prev r : Json) :
    Json.lookup (Json.asObj (mergePathsSection prev r)) "components" =
    Json.lookup (Json.asObj r) "components" := by
  unfold mergePathsSection
  split
  · split
    · exact Json.lookup_setKey_ne _ "paths" "components" _ (by decide)
    · rfl
  · rfl

theorem operationDescription_congr (r r2 : Json) (pk m : String)
    (h : Json.lookup (Json.asObj r2) "paths" = Json.lookup (Json.asObj r) "paths") :
    operationDescription r2 pk m = operationDescription r pk m := by
  rw [operationDescription_eq, operationDescription_eq, h]

theorem schemaDescription_congr (r r2 : Json) (name : String)
    (h : Json.lookup (Json.asObj r2) "components" =
      Json.lookup (Json.asObj r) "components") :
    schemaDescription r2 name = schemaDescription r name := by
  unfold schemaDescription schemaTableOf
  rw [h]

/-- Evaluation of the schemas section when both specs carry a schema table. -/
theorem mergeSchemasSection_eval (prev prevComponents prevSchemas : Json)
    (rFs cFs tFs : Obj)
    (hp1 : Json.lookup (Json.asObj prev) "components" = some prevComponents)
    (hp2 : Json.lookup (Json.asObj prevComponents) "schemas" = some prevSchemas)
    (hc0 : Json.lookup rFs "components" = some (Json.obj cFs))
    (ht0 : Json.lookup cFs "schemas" = some (Json.obj tFs)) :
    mergeSchemasSection prev (Json.obj rFs) =
      Json.obj (Json.setKey rFs "components"
        (Json.obj (Json.setKey cFs "schemas"
          (Json.obj (mergeSchemas (Json.asObj prevSchemas) tFs))))) := by
  have hek1 : ensureKey rFs "components" = rFs :=
    ensureKey_of_contains _ _ (by simp [Json.containsKey, hc0])
  have hek2 : ensureKey cFs "schemas" = cFs :=
    ensureKey_of_contains _ _ (by simp [Json.containsKey, ht0])
  unfold mergeSchemasSection
  simp only [hp1, hp2, hek1, hek2, hc0, ht0]

/-- The schemas section is the identity when the previous spec carries no
schema table. -/
theorem mergeSchemasSection_id_of_no_components (prev r : Json)
    (hp1 : Json.lookup (Json.asObj prev) "components" = none) :
    mergeSchemasSection prev r = r := by
  unfold mergeSchemasSection
  rw [hp1]

theorem mergeSchemasSection_id_of_no_schemas (prev prevComponents r : Json)
    (hp1 : Json.lookup (Json.asObj prev) "components" = some prevComponents)
    (hp2 : Json.lookup (Json.asObj prevComponents) "schemas" = none) :
    mergeSchemasSection prev r = r := by
  unfold mergeSchemasSection
  simp only [hp1, hp2]

/-- A present schema description survives the schemas section. -/
theorem mergeSchemasSection_schemaDesc (prev r : Json) (name : String) (d : Json)
    (h : schemaDescription r name = some d) :
    schemaDescription (mergeSchemasSection prev r) name = some d := by
  obtain ⟨c0, hc0, tbl0, htbl0, hdesc0⟩ :
      ∃ c0, Json.lookup (Json.asObj r) "components" = some c0 ∧
      ∃ tbl0, Json.lookup (Json.asObj c0) "schemas" = some tbl0 ∧
        schemaDescInTable (Json.asObj tbl0) name = some d := by
    unfold schemaDescription schemaTableOf at h
    rcases hc : Json.lookup (Json.asObj r) "components" with _ | c0
    · rw [hc] at h; cases h
    · rw [hc] at h
      have h2 : (match Json.lookup (Json.asObj c0) "schemas" with
                 | some tbl => schemaDescInTable (Json.asObj tbl) name
                 | none => none) = some d := h
      rcases ht : Json.lookup (Json.asObj c0) "schemas" with _ | tbl0
      · rw [ht] at h2; cases h2
      · rw [ht] at h2
        exact ⟨c0, rfl, tbl0, ht, h2⟩
  obtain ⟨rFs, rfl⟩ := exists_obj_of_lookup hc0
  obtain ⟨cFs, rfl⟩ := exists_obj_of_lookup htbl0
  obtain ⟨sch0, hsch0⟩ : ∃ sch0, Json.lookup (Json.asObj tbl0) name = some sch0 := by
    unfold schemaDescInTable at hdesc0
    rcases hs : Json.lookup (Json.asObj tbl0) name with _ | sch0
    · rw [hs] at hdesc0; cases hdesc0
    · exact ⟨sch0, rfl⟩
  obtain ⟨tFs, rfl⟩ := exists_obj_of_lookup hsch0
  simp only [Json.asObj] at hc0 htbl0 hdesc0
  rcases hp1 : Json.lookup (Json.asObj prev) "components" with _ | prevComponents
  · rw [mergeSchemasSection_id_of_no_components prev _ hp1]
    exact h
  · rcases hp2 : Json.lookup (Json.asObj prevComponents) "schemas" with _ | prevSchemas
    · rw [mergeSchemasSection_id_of_no_schemas prev prevComponents _ hp1 hp2]
      exact h
    · rw [mergeSchemasSection_eval prev prevComponents prevSchemas rFs cFs tFs
        hp1 hp2 hc0 htbl0]
      unfold schemaDescription schemaTableOf
      rw [show Json.asObj (Json.obj (Json.setKey rFs "components"
          (Json.obj (Json.setKey cFs "schemas"
            (Json.obj (mergeSchemas (Json.asObj prevSchemas) tFs)))))) =
          Json.setKey rFs "components"
            (Json.obj (Json.setKey cFs "schemas"
              (Json.obj (mergeSchemas (Json.asObj prevSchemas) tFs)))) from rfl,
        Json.lookup_setKey_self]
      have h3 : (match Json.lookup (Json.asObj (Json.obj (Json.setKey cFs "schemas"
            (Json.obj (mergeSchemas (Json.asObj prevSchemas) tFs))))) "schemas" with
          | some tbl => schemaDescInTable (Json.asObj tbl) name
          | none => none) =
          schemaDescInTable (mergeSchemas (Json.asObj prevSchemas) tFs) name := by
        rw [show Json.asObj (Json.obj (Json.setKey cFs "schemas"
            (Json.obj (mergeSchemas (Json.asObj prevSchemas) tFs)))) =
            Json.setKey cFs "schemas"
              (Json.obj (mergeSchemas (Json.asObj prevSchemas) tFs)) from rfl,
          Json.lookup_setKey_self]
        rfl
      rw [h3]
      exact mergeSchemas_pres (Json.asObj prevSchemas) tFs name d hdesc0

/-! ### The merge never adds a path -/

theorem pathsStep_none (curPaths : Obj) (pkv : String × Json) (pk : String)
    (h : Json.lookup curPaths pk = none) :
    Json.lookup (pathsStep curPaths pkv) pk = none := by
  unfold pathsStep
  rcases hlk : Json.lookup curPaths pkv.1 with _ | curItem
  · exact h
  · show Json.lookup (Json.setKey curPaths pkv.1 (mergePathItem pkv.2 curItem)) pk = none
    exact Json.lookup_setKey_none curPaths pkv.1 pk _
      (by simp [Json.containsKey, hlk]) h

theorem mergePaths_none (prevPaths curPaths : Obj) (pk : String)
    (h : Json.lookup curPaths pk = none) :
    Json.lookup (mergePaths prevPaths curPaths) pk = none := by
  unfold mergePaths
  induction prevPaths generalizing curPaths with
  | nil => exact h
  | cons pkv rest ih =>
    rw [List.foldl_cons]
    exact ih (pathsStep curPaths pkv) (pathsStep_none curPaths pkv pk h)

theorem pathItemOf_congr (r r2 : Json) (pk : String)
    (h : Json.lookup (Json.asObj r2) "paths" = Json.lookup (Json.asObj r) "paths") :
    pathItemOf r2 pk = pathItemOf r pk := by
  unfold pathItemOf
  rw [h]

/-- An absent path stays absent through the paths section. -/
theorem mergePathsSection_none (prev cur : Json) (pk : String)
    (h : pathItemOf cur pk = none) :
    pathItemOf (mergePathsSection prev cur) pk = none := by
  unfold mergePathsSection
  split
  · rename_i prevPaths curFs hpl
    split
    · rename_i curPaths hlk
      unfold pathItemOf
      rw [show Json.asObj (Json.obj (Json.setKey curFs "paths"
          (Json.obj (mergePaths (Json.asObj prevPaths) curPaths)))) =
          Json.setKey curFs "paths"
            (Json.obj (mergePaths (Json.asObj prevPaths) curPaths)) from rfl,
        Json.lookup_setKey_self]
      unfold pathItemOf at h
      rw [show Json.asObj (Json.obj curFs) = curFs from rfl, hlk] at h
      exact mergePaths_none (Json.asObj prevPaths) curPaths pk h
    · exact h
  · exact h

/-! ### Claim C4 -/

/-- Previous spec with `GET /a` described as `X`. -/
def prevSpecX : Json :=
  Json.obj [("paths", Json.obj [("/a", Json.obj [("get", Json.obj
    [("description", Json.str "X")])])])]

/-- Current spec with `GET /a` lacking a description. -/
def curSpecNoDesc : Json :=
  Json.obj [("paths", Json.obj [("/a", Json.obj [("get", Json.obj [])])])]

/-- Current spec with `GET /a` described as `Y`. -/
def curSpecY : Json :=
  Json.obj [("paths", Json.obj [("/a", Json.obj [("get", Json.obj
    [("description", Json.str "Y")])])])]

/-- A previous spec carrying descriptions at every level the merge handles:
operation, parameter, requestBody (top and per content type), response (per
status code and per content type), schema, and schema property. -/
def prevFull : Json :=
  Json.obj [
    ("paths", Json.obj [("/a", Json.obj [("get", Json.obj [
      ("description", Json.str "opD"),
      ("parameters", Json.arr [Json.obj [("name", Json.str "id"),
        ("description", Json.str "paramD")]]),
      ("requestBody", Json.obj [
        ("description", Json.str "rbD"),
        ("content", Json.obj [("application/json", Json.obj [
          ("description", Json.str "ctD")])])]),
      ("responses", Json.obj [
        ("200", Json.obj [
          ("description", Json.str "respD"),
          ("content", Json.obj [("application/json", Json.obj [
            ("description", Json.str "respCtD")])])]),
        ("201", Json.obj [("description", Json.str "respD2")])])])])]),
    ("components", Json.obj [("schemas", Json.obj [
      ("S", Json.obj [
        ("description", Json.str "schD"),
        ("properties", Json.obj [("f", Json.obj [
          ("description", Json.str "propD")])])])])])]

/-- The same structure freshly fetched: no descriptions except the generic
`"OK"` on response 200 (replaced) and `"Done"` on response 201 (kept). -/
def curBare : Json :=
  Json.obj [
    ("paths", Json.obj [("/a", Json.obj [("get", Json.obj [
      ("parameters", Json.arr [Json.obj [("name", Json.str "id")]]),
      ("requestBody", Json.obj [
        ("content", Json.obj [("application/json", Json.obj [])])]),
      ("responses", Json.obj [
        ("200", Json.obj [
          ("description", Json.str "OK"),
          ("content", Json.obj [("application/json", Json.obj [])])]),
        ("201", Json.obj [("description", Json.str "Done")])])])])]),
    ("components", Json.obj [("schemas", Json.obj [
      ("S", Json.obj [
        ("properties", Json.obj [("f", Json.obj [])])])])])]

/-- What the carry-forward produces on `curBare`: every previous description
copied onto the element that lacked one (new keys appended in Python dict
order), the `"OK"` response description replaced, the `"Done"` one kept. -/
def mergedFull : Json :=
  Json.obj [
    ("paths", Json.obj [("/a", Json.obj [("get", Json.obj [
      ("parameters", Json.arr [Json.obj [("name", Json.str "id"),
        ("description", Json.str "paramD")]]),
      ("requestBody", Json.obj [
        ("content", Json.obj [("application/json", Json.obj [
          ("description", Json.str "ctD")])]),
        ("description", Json.str "rbD")]),
      ("responses", Json.obj [
        ("200", Json.obj [
          ("description", Json.str "respD"),
          ("content", Json.obj [("application/json", Json.obj [
            ("description", Json.str "respCtD")])])]),
        ("201", Json.obj [("description", Json.str "Done")])]),
      ("description", Json.str "opD")])])]),
    ("components", Json.obj [("schemas", Json.obj [
      ("S", Json.obj [
        ("properties", Json.obj [("f", Json.obj [
          ("description", Json.str "propD")])]),
        ("description", Json.str "schD")])])])]

/-- C4.  Description carry-forward copies descriptions only onto elements
present in both specifications and only where the current element lacks one
(or, for a response, carries the generic `"OK"`): an existing operation or
schema description is never overwritten, the merge adds no paths, the spec's
`GET /a` examples hold, and the all-level example `prevFull`/`curBare` merges
to exactly `mergedFull` (operation, parameter, request-body, response,
nested content-type, schema and property descriptions copied; `"OK"`
replaced; `"Done"` kept). -/
theorem c4_merge_descriptions :
    (∀ (prev cur : Json) (pk m : String) (d : Json),
      operationDescription cur pk m = some d →
      operationDescription (merge_descriptions prev cur) pk m = some d) ∧
    (∀ (prev cur : Json) (name : String) (d : Json),
      schemaDescription cur name = some d →
      schemaDescription (merge_descriptions prev cur) name = some d) ∧
    (∀ (prev cur : Json) (pk : String),
      pathItemOf cur pk = none →
      pathItemOf (merge_descriptions prev cur) pk = none) ∧
    (operationDescription (merge_descriptions prevSpecX curSpecNoDesc) "/a" "get" =
      some (Json.str "X")) ∧
    (operationDescription (merge_descriptions prevSpecX curSpecY) "/a" "get" =
      some (Json.str "Y")) ∧
    (merge_descriptions prevFull curBare = mergedFull) := by
  refine ⟨?_, ?_, ?_, by decide, by decide, by decide⟩
  · intro prev cur pk m d h
    unfold merge_descriptions
    split
    · exact h
    · have h1 := mergePathsSection_opDesc prev cur pk m d h
      rw [operationDescription_congr (mergePathsSection prev cur)
        (mergeSchemasSection prev (mergePathsSection prev cur)) pk m
        (lookup_mergeSchemasSection_paths prev (mergePathsSection prev cur))]
      exact h1
  · intro prev cur name d h
    unfold merge_descriptions
    split
    · exact h
    · apply mergeSchemasSection_schemaDesc
      rw [schemaDescription_congr cur (mergePathsSection prev cur) name
        (lookup_mergePathsSection_components prev cur)]
      exact h
  · intro prev cur pk h
    unfold merge_descriptions
    split
    · exact h
    · have h1 := mergePathsSection_none prev cur pk h
      rw [pathItemOf_congr (mergePathsSection prev cur)
        (mergeSchemasSection prev (mergePathsSection prev cur)) pk
        (lookup_mergeSchemasSection_paths prev (mergePathsSection prev cur))]
      exact h1

/-- Witness for C4 at the two `GET /a` examples. -/
theorem c4_merge_descriptions_witness :
    operationDescription curSpecY "/a" "get" = some (Json.str "Y") ∧
    operationDescription (merge_descriptions prevSpecX curSpecY) "/a" "get" =
      some (Json.str "Y") ∧
    pathItemOf curSpecY "/b" = none ∧
    pathItemOf (merge_descriptions prevSpecX curSpecY) "/b" = none :=
  ⟨by decide,
   c4_merge_descriptions.1 prevSpecX curSpecY "/a" "get" (Json.str "Y") (by decide),
   by decide,
   c4_merge_descriptions.2.2.1 prevSpecX curSpecY "/b" (by decide)⟩

/-! ## `generate_descriptions` (src/app/services/des_completion_service.py) -/

/-- The paths to process: the added paths, then the modified paths using the
new version stored under `new` (falling back to the diff entry itself). -/
def pathsToProcess (diff : DiffReport) : Obj :=
  let p1 := diff.added_paths.foldl (fun acc kv => Json.setKey acc kv.1 kv.2) []
  diff.modified_paths.foldl
    (fun acc kv =>
      match Json.lookup (Json.asObj kv.2) "new" with
      | some nv => Json.setKey acc kv.1 nv
      | none => Json.setKey acc kv.1 kv.2) p1

/-- The skeleton specification each batch payload is built from. -/
def base_partial_spec (updated_spec : Json) : Json :=
  Json.obj [
    ("openapi", updated_spec.getD "openapi" (Json.str "3.0.0")),
    ("info", updated_spec.getD "info"
      (Json.obj [("title", Json.str "Partial API"), ("version", Json.str "1.0.0")])),
    ("paths", Json.obj []),
    ("components", Json.obj [("schemas", Json.obj [])])]

/-- `{s: schemas[s] for s in names if s in schemas}`. -/
def relevantSchemas (schemas : Obj) (names : List String) : Obj :=
  names.foldl
    (fun acc n =>
      match Json.lookup schemas n with
      | some v => Json.setKey acc n v
      | none => acc) []

/-- One batch payload: the base skeleton with the group's paths and its
referenced schemas filled in. -/
def buildBatch (base : Json) (paths : Obj) (rel : Obj) : Json :=
  match base with
  | Json.obj baseFs =>
    Json.obj (Json.setKey (Json.setKey baseFs "paths" (Json.obj paths))
      "components" (Json.obj [("schemas", Json.obj rel)]))
  | _ => base

/-- The paths half of merging one returned fragment:
`updated_spec.setdefault('paths', {}).update(chunk['paths'])` when the
fragment carries paths. -/
def mergeChunkPaths (spec chunk : Json) : Json :=
  match Json.lookup (Json.asObj chunk) "paths" with
  | some cp =>
    (match spec with
     | Json.obj sFs =>
       (match Json.lookup (ensureKey sFs "paths") "paths" with
        | some (Json.obj sps) =>
          Json.obj (Json.setKey (ensureKey sFs "paths") "paths"
            (Json.obj (Json.updateObj sps (Json.asObj cp))))
        | _ => Json.obj (ensureKey sFs "paths"))
     | _ => spec)
  | none => spec

/-- The schemas half of merging one returned fragment:
`updated_spec.setdefault('components', {}).setdefault('schemas', {})
.update(chunk['components']['schemas'])` when the fragment carries them. -/
def mergeChunkSchemas (spec1 chunk : Json) : Json :=
  match Json.lookup (Json.asObj chunk) "components" with
  | none => spec1
  | some cc =>
    (match Json.lookup (Json.asObj cc) "schemas" with
     | none => spec1
     | some cs =>
       (match spec1 with
        | Json.obj sFs =>
          (match Json.lookup (ensureKey sFs "components") "components" with
           | some (Json.obj compFs) =>
             (match Json.lookup (ensureKey compFs "schemas") "schemas" with
              | some (Json.obj schFs) =>
                Json.obj (Json.setKey (ensureKey sFs "components") "components"
                  (Json.obj (Json.setKey (ensureKey compFs "schemas") "schemas"
                    (Json.obj (Json.updateObj schFs (Json.asObj cs))))))
              | _ => Json.obj (ensureKey sFs "components"))
           | _ => Json.obj (ensureKey sFs "components"))
        | _ => spec1))

/-- Merging one returned fragment into the running final specification:
paths first, then component schemas, as in the source. -/
def mergeChunk (spec chunk : Json) : Json :=
  mergeChunkSchemas (mergeChunkPaths spec chunk) chunk

/-- The sequential batch loop: empty batches are skipped without a call; the
oracle `rag` gives the outcome of the i-th annotation call (`none` for any
failure: non-200 status, timeout, or unparseable body); a failed call
contributes nothing.  Returns the final spec and the payloads sent. -/
def processBatches (rag : Nat → Option Json) :
    List Json → Json → List Json → Json × List Json
  | [], spec, calls => (spec, calls)
  | b :: rest, spec, calls =>
    if (Json.asObj (b.getD "paths" (Json.obj []))).length = 0 then
      processBatches rag rest spec calls
    else
      match rag calls.length with
      | some chunk => processBatches rag rest (mergeChunk spec chunk) (calls ++ [b])
      | none => processBatches rag rest spec (calls ++ [b])

/-- `generate_descriptions` (src/app/services/des_completion_service.py),
returning the updated specification and the list of annotation payloads
actually sent.  The trailing `if current_call_paths` block of the source is
dead code (the accumulator is reset at the end of every iteration) and is
not modelled. -/
def generate_descriptionsT (openapi_spec_source : Json)
    (spec_diff_report : DiffReport) (rag : Nat → Option Json) : Json × List Json :=
  let updated_spec := openapi_spec_source
  let paths_to_process := pathsToProcess spec_diff_report
  if paths_to_process.isEmpty then (updated_spec, [])
  else
    let schemas := Json.asObj
      ((updated_spec.getD "components" (Json.obj [])).getD "schemas" (Json.obj []))
    let raw_groups := group_openapi_paths paths_to_process schemas
    if raw_groups.isEmpty then (updated_spec, [])
    else
      let batched_api_calls := raw_groups.map
        (fun g => buildBatch (base_partial_spec updated_spec) g.paths
          (relevantSchemas schemas g.schema_names))
      if batched_api_calls.isEmpty then (updated_spec, [])
      else processBatches rag batched_api_calls updated_spec []

/-- The updated specification `generate_descriptions` returns. -/
def generate_descriptions (openapi_spec_source : Json)
    (spec_diff_report : DiffReport) (rag : Nat → Option Json) : Json :=
  (generate_descriptionsT openapi_spec_source spec_diff_report rag).1

/-! ### Fragment-merging lemmas for claim C7 -/

/-- The entry of the final spec's paths dict at a key. -/
def lookupPath (spec : Json) (k : String) : Option Json :=
  Json.lookup (Json.asObj (spec.getD "paths" (Json.obj []))) k

/-- The entry of the final spec's component-schemas dict at a key. -/
def lookupSchema (spec : Json) (k : String) : Option Json :=
  Json.lookup (Json.asObj
    ((spec.getD "components" (Json.obj [])).getD "schemas" (Json.obj []))) k

theorem getD_obj (fs : Obj) (k : String) (d : Json) :
    Json.getD (Json.obj fs) k d =
      (match Json.lookup fs k with
       | some v => v
       | none => d) := rfl

theorem lookup_ensureKey_self (fs : Obj) (k : String) :
    Json.lookup (ensureKey fs k) k =
      some (match Json.lookup fs k with
            | some v => v
            | none => Json.obj []) := by
  unfold ensureKey
  rcases hc : Json.lookup fs k with _ | v
  · rw [if_neg (by simp [Json.containsKey, hc]), Json.lookup_setKey_self]
  · rw [if_pos (by simp [Json.containsKey, hc]), hc]

theorem lookupPath_congr (r r2 : Json) (k : String)
    (h : Json.lookup (Json.asObj r2) "paths" = Json.lookup (Json.asObj r) "paths") :
    lookupPath r2 k = lookupPath r k := by
  unfold lookupPath Json.getD
  rw [h]

theorem lookupSchema_congr (r r2 : Json) (k : String)
    (h : Json.lookup (Json.asObj r2) "components" =
      Json.lookup (Json.asObj r) "components") :
    lookupSchema r2 k = lookupSchema r k := by
  unfold lookupSchema Json.getD
  rw [h]

/-- A path key absent from the fragment keeps its value through the paths
half of the merge. -/
theorem mergeChunkPaths_lookupPath (spec chunk : Json) (k : String)
    (h : Json.containsKey (Json.asObj (chunk.getD "paths" (Json.obj []))) k = false) :
    lookupPath (mergeChunkPaths spec chunk) k = lookupPath spec k := by
  unfold mergeChunkPaths
  split
  · rename_i cp hcp
    have hcpk : Json.containsKey (Json.asObj cp) k = false := by
      rw [show chunk.getD "paths" (Json.obj []) = cp by rw [Json.getD, hcp]] at h
      exact h
    split
    · rename_i sFs
      split
      · rename_i sps heq
        rw [lookup_ensureKey_self sFs "paths"] at heq
        have hM : (match Json.lookup sFs "paths" with
                   | some v => v
                   | none => Json.obj []) = Json.obj sps := by
          exact Option.some.inj heq
        unfold lookupPath
        rw [getD_obj, getD_obj,
          show Json.lookup (Json.setKey (ensureKey sFs "paths") "paths"
            (Json.obj (Json.updateObj sps (Json.asObj cp)))) "paths" =
            some (Json.obj (Json.updateObj sps (Json.asObj cp)))
            from Json.lookup_setKey_self _ _ _, hM]
        show Json.lookup (Json.updateObj sps (Json.asObj cp)) k = Json.lookup sps k
        have hnm : Json.containsKey (Json.asObj cp) k = false := hcpk
        exact Json.lookup_updateObj_not_mem sps (Json.asObj cp) k hnm
      · rename_i heq
        unfold lookupPath
        rw [getD_obj, getD_obj, lookup_ensureKey_self sFs "paths"]
    · rfl
  · rfl

/-- `ensureKey` does not change the value observed at its key (only
materializes an empty dict when absent). -/
theorem getD_ensureKey (fs : Obj) (k : String) :
    Json.getD (Json.obj (ensureKey fs k)) k (Json.obj []) =
      Json.getD (Json.obj fs) k (Json.obj []) := by
  rw [getD_obj, getD_obj, lookup_ensureKey_self]

/-- A schema name absent from the fragment keeps its value through the
schemas half of the merge. -/
theorem mergeChunkSchemas_lookupSchema (spec1 chunk : Json) (k : String)
    (h : Json.containsKey (Json.asObj
      ((chunk.getD "components" (Json.obj [])).getD "schemas" (Json.obj []))) k
      = false) :
    lookupSchema (mergeChunkSchemas spec1 chunk) k = lookupSchema spec1 k := by
  unfold mergeChunkSchemas
  split
  · rfl
  · rename_i cc hcc
    split
    · rfl
    · rename_i cs hcs
      have hcsk : Json.containsKey (Json.asObj cs) k = false := by
        rw [show chunk.getD "components" (Json.obj []) = cc by rw [Json.getD, hcc],
          show cc.getD "schemas" (Json.obj []) = cs by rw [Json.getD, hcs]] at h
        exact h
      split
      · rename_i sFs
        split
        · rename_i compFs heq1
          rw [lookup_ensureKey_self sFs "components"] at heq1
          have hM1 : (match Json.lookup sFs "components" with
                      | some v => v
                      | none => Json.obj []) = Json.obj compFs :=
            Option.some.inj heq1
          split
          · rename_i schFs heq2
            rw [lookup_ensureKey_self compFs "schemas"] at heq2
            have hM2 : (match Json.lookup compFs "schemas" with
                        | some v => v
                        | none => Json.obj []) = Json.obj schFs :=
              Option.some.inj heq2
            have e1 : Json.getD (Json.obj (Json.setKey (ensureKey sFs "components")
                "components" (Json.obj (Json.setKey (ensureKey compFs "schemas")
                  "schemas" (Json.obj (Json.updateObj schFs (Json.asObj cs)))))))
                "components" (Json.obj []) =
                Json.obj (Json.setKey (ensureKey compFs "schemas") "schemas"
                  (Json.obj (Json.updateObj schFs (Json.asObj cs)))) := by
              rw [getD_obj, Json.lookup_setKey_self]
            have e2 : Json.getD (Json.obj (Json.setKey (ensureKey compFs "schemas")
                "schemas" (Json.obj (Json.updateObj schFs (Json.asObj cs)))))
                "schemas" (Json.obj []) =
                Json.obj (Json.updateObj schFs (Json.asObj cs)) := by
              rw [getD_obj, Json.lookup_setKey_self]
            have f1 : Json.getD (Json.obj sFs) "components" (Json.obj []) =
                Json.obj compFs := by
              rw [getD_obj, hM1]
            have f2 : Json.getD (Json.obj compFs) "schemas" (Json.obj []) =
                Json.obj schFs := by
              rw [getD_obj, hM2]
            unfold lookupSchema
            rw [e1, e2, f1, f2]
            exact Json.lookup_updateObj_not_mem schFs (Json.asObj cs) k hcsk
          · rename_i heq2
            unfold lookupSchema
            rw [getD_ensureKey sFs "components"]
        · rename_i heq1
          unfold lookupSchema
          rw [getD_ensureKey sFs "components"]
      · rfl

/-- The paths half never touches the `components` entry. -/
theorem lookup_mergeChunkPaths_components (spec chunk : Json) :
    Json.lookup (Json.asObj (mergeChunkPaths spec chunk)) "components" =
    Json.lookup (Json.asObj spec) "components" := by
  unfold mergeChunkPaths
  split
  · split
    · rename_i sFs
      split
      · rename_i sps heq
        show Json.lookup (Json.setKey (ensureKey sFs "paths") "paths" _) "components" = _
        rw [Json.lookup_setKey_ne _ _ _ _ (by decide),
          lookup_ensureKey_ne sFs "paths" "components" (by decide)]
        rfl
      · show Json.lookup (ensureKey sFs "paths") "components" = _
        rw [lookup_ensureKey_ne sFs "paths" "components" (by decide)]
        rfl
    · rfl
  · rfl

/-- The schemas half never touches the `paths` entry. -/
theorem lookup_mergeChunkSchemas_paths (spec1 chunk : Json) :
    Json.lookup (Json.asObj (mergeChunkSchemas spec1 chunk)) "paths" =
    Json.lookup (Json.asObj spec1) "paths" := by
  unfold mergeChunkSchemas
  split
  · rfl
  · split
    · rfl
    · split
      · rename_i sFs
        split
        · split
          · show Json.lookup (Json.setKey (ensureKey sFs "components") "components" _)
              "paths" = _
            rw [Json.lookup_setKey_ne _ _ _ _ (by decide),
              lookup_ensureKey_ne sFs "components" "paths" (by decide)]
            rfl
          · show Json.lookup (ensureKey sFs "components") "paths" = _
            rw [lookup_ensureKey_ne sFs "components" "paths" (by decide)]
            rfl
        · show Json.lookup (ensureKey sFs "components") "paths" = _
          rw [lookup_ensureKey_ne sFs "components" "paths" (by decide)]
          rfl
      · rfl

/-- A path key absent from the fragment keeps its value through the whole
fragment merge. -/
theorem mergeChunk_lookupPath (spec chunk : Json) (k : String)
    (h : Json.containsKey (Json.asObj (chunk.getD "paths" (Json.obj []))) k = false) :
    lookupPath (mergeChunk spec chunk) k = lookupPath spec k := by
  unfold mergeChunk
  rw [lookupPath_congr (mergeChunkPaths spec chunk)
    (mergeChunkSchemas (mergeChunkPaths spec chunk) chunk) k
    (lookup_mergeChunkSchemas_paths (mergeChunkPaths spec chunk) chunk)]
  exact mergeChunkPaths_lookupPath spec chunk k h

/-- A schema name absent from the fragment keeps its value through the whole
fragment merge. -/
theorem mergeChunk_lookupSchema (spec chunk : Json) (k : String)
    (h : Json.containsKey (Json.asObj
      ((chunk.getD "components" (Json.obj [])).getD "schemas" (Json.obj []))) k
      = false) :
    lookupSchema (mergeChunk spec chunk) k = lookupSchema spec k := by
  unfold mergeChunk
  rw [mergeChunkSchemas_lookupSchema (mergeChunkPaths spec chunk) chunk k h]
  exact lookupSchema_congr spec (mergeChunkPaths spec chunk) k
    (lookup_mergeChunkPaths_components spec chunk)

/-- A batch loop whose calls all fail leaves the specification untouched. -/
theorem processBatches_all_none (rag : Nat → Option Json)
    (hr : ∀ i, rag i = none) :
    ∀ (bs : List Json) (spec : Json) (calls : List Json),
      (processBatches rag bs spec calls).1 = spec := by
  intro bs
  induction bs with
  | nil => intro spec calls; rfl
  | cons b rest ih =>
    intro spec calls
    unfold processBatches
    split
    · exact ih spec calls
    · rw [hr calls.length]
      exact ih spec (calls ++ [b])

/-- Path keys untouched by every returned fragment keep their values through
the batch loop. -/
theorem processBatches_lookupPath (rag : Nat → Option Json) (k : String)
    (hr : ∀ i c, rag i = some c →
      Json.containsKey (Json.asObj (c.getD "paths" (Json.obj []))) k = false) :
    ∀ (bs : List Json) (spec : Json) (calls : List Json),
      lookupPath (processBatches rag bs spec calls).1 k = lookupPath spec k := by
  intro bs
  induction bs with
  | nil => intro spec calls; rfl
  | cons b rest ih =>
    intro spec calls
    unfold processBatches
    split
    · exact ih spec calls
    · rcases hch : rag calls.length with _ | chunk
      · exact ih spec (calls ++ [b])
      · show lookupPath
          (processBatches rag rest (mergeChunk spec chunk) (calls ++ [b])).1 k =
          lookupPath spec k
        rw [ih (mergeChunk spec chunk) (calls ++ [b])]
        exact mergeChunk_lookupPath spec chunk k (hr calls.length chunk hch)

/-- Schema names untouched by every returned fragment keep their values
through the batch loop. -/
theorem processBatches_lookupSchema (rag : Nat → Option Json) (k : String)
    (hr : ∀ i c, rag i = some c → Json.containsKey (Json.asObj
      ((c.getD "components" (Json.obj [])).getD "schemas" (Json.obj []))) k = false) :
    ∀ (bs : List Json) (spec : Json) (calls : List Json),
      lookupSchema (processBatches rag bs spec calls).1 k = lookupSchema spec k := by
  intro bs
  induction bs with
  | nil => intro spec calls; rfl
  | cons b rest ih =>
    intro spec calls
    unfold processBatches
    split
    · exact ih spec calls
    · rcases hch : rag calls.length with _ | chunk
      · exact ih spec (calls ++ [b])
      · show lookupSchema
          (processBatches rag rest (mergeChunk spec chunk) (calls ++ [b])).1 k =
          lookupSchema spec k
        rw [ih (mergeChunk spec chunk) (calls ++ [b])]
        exact mergeChunk_lookupSchema spec chunk k (hr calls.length chunk hch)

/-! ## The orchestration pipeline `initiate_doc_generation_process`
(src/app/services/orchestration_service.py, claims C1, C2, C3, C7)

The driver talks to a database (task/project rows, previous-spec
storage), an HTTP source (`fetch_openapi_spec`), the Code-RAG indexing
service (`setup_code_rag_repository_and_wait`) and the annotation
service.  Each collaborator is modelled as an oracle field of `Env`: the
embedding is the deterministic control flow of the source over those
oracles.  The task/project status store itself is modelled reliable (the
source's inner `except` around the final status writes only logs). -/

/-- `TaskStatusEnum`. -/
inductive TaskStatus where
  | pending | processing | success | failed
deriving Repr, DecidableEq

/-- `ProjectStatusEnum` (the members the orchestration writes or reads). -/
inductive ProjectStatus where
  | init | pending | active | failed
deriving Repr, DecidableEq

/-- Which error message family `update_task_status` receives on a failure,
one per distinct failure site of the source. -/
inductive ErrMsg where
  | lockContention | dbOperational | unexpectedFetchingProject | projectNotFound
  | noSourceUrl | fetchFailed | ragSetupFailed | unexpected
deriving Repr, DecidableEq

/-- Outcome of `crud_project.get_project_for_update` as the source
distinguishes them: success, `ProjectLockedError`, `OperationalError`, or
any other exception. -/
inductive LockOutcome where
  | granted | locked | opError | excRaise
deriving Repr, DecidableEq

/-- The project row columns the orchestration reads. -/
structure ProjectRow where
  source_openapi_url : Option String
  status : ProjectStatus
deriving Repr, DecidableEq

/-- One observable call to an external collaborator. -/
inductive CallEv where
  | fetchSpec
  | fetchPrevious
  | ragSetup
  | annotate (payload : Json)
  | persist (doc : Json)
deriving Repr, DecidableEq

/-- The oracles of one run: lock outcome, the project row (none = not
found), the fetched source spec (none = every fetch failure mode), the
previous-spec read (`.error` = the DB raised), whether the Code-RAG setup
reported `completed`, the annotation-call oracle (argument: how many
annotation calls were already sent), and whether `create_openapi_doc`
raises. -/
structure Env where
  lock : LockOutcome
  dbProject : Option ProjectRow
  fetched : Option Json
  previous : Except Unit (Option Json)
  ragCompleted : Bool
  rag : Nat → Option Json
  persistRaises : Bool

/-- The observable outcome of one run: final task status and error, the
project row status after the run (none = no row), the specs stored by
`create_openapi_doc`, and the collaborator calls in order. -/
structure RunState where
  taskStatus : TaskStatus
  taskError : Option ErrMsg
  projectStatus : Option ProjectStatus
  savedSpecs : List Json
  calls : List CallEv
deriving Repr, DecidableEq

/-- `if previous_spec is None: ... else: openapi_spec_source =
merge_descriptions(previous_spec, openapi_spec_source)`. -/
def mergeIfPrev (prevOpt : Option Json) (s : Json) : Json :=
  match prevOpt with
  | none => s
  | some prev => merge_descriptions prev s

/-- `initiate_doc_generation_process`
(src/app/services/orchestration_service.py): the task is set to
`processing` first, then every stage either proceeds or exits with the
status writes of the corresponding source branch; the two oracle-raised
exceptions (`previous`, `persistRaises`) land in the outer boundary
handler, which fails the task and fails the project when it was loaded
and not already failed (here its status is then `pending`). -/
def initiate_doc_generation_process (env : Env) : RunState :=
  match env.lock with
  | LockOutcome.locked =>
    { taskStatus := TaskStatus.failed, taskError := some ErrMsg.lockContention,
      projectStatus := env.dbProject.map ProjectRow.status,
      savedSpecs := [], calls := [] }
  | LockOutcome.opError =>
    { taskStatus := TaskStatus.failed, taskError := some ErrMsg.dbOperational,
      projectStatus := env.dbProject.map ProjectRow.status,
      savedSpecs := [], calls := [] }
  | LockOutcome.excRaise =>
    { taskStatus := TaskStatus.failed,
      taskError := some ErrMsg.unexpectedFetchingProject,
      projectStatus := env.dbProject.map ProjectRow.status,
      savedSpecs := [], calls := [] }
  | LockOutcome.granted =>
    match env.dbProject with
    | none =>
      { taskStatus := TaskStatus.failed, taskError := some ErrMsg.projectNotFound,
        projectStatus := none, savedSpecs := [], calls := [] }
    | some p =>
      match p.source_openapi_url with
      | none =>
        { taskStatus := TaskStatus.failed, taskError := some ErrMsg.noSourceUrl,
          projectStatus := some ProjectStatus.failed, savedSpecs := [], calls := [] }
      | some _ =>
        match env.fetched with
        | none =>
          { taskStatus := TaskStatus.failed, taskError := some ErrMsg.fetchFailed,
            projectStatus := some ProjectStatus.failed, savedSpecs := [],
            calls := [CallEv.fetchSpec] }
        | some src =>
          match env.previous with
          | Except.error _ =>
            { taskStatus := TaskStatus.failed, taskError := some ErrMsg.unexpected,
              projectStatus := some ProjectStatus.failed, savedSpecs := [],
              calls := [CallEv.fetchSpec, CallEv.fetchPrevious] }
          | Except.ok prevOpt =>
            let merged := mergeIfPrev prevOpt src
            let diff := calculate_spec_diff prevOpt merged
            if env.ragCompleted = false then
              { taskStatus := TaskStatus.failed,
                taskError := some ErrMsg.ragSetupFailed,
                projectStatus := some ProjectStatus.failed, savedSpecs := [],
                calls := [CallEv.fetchSpec, CallEv.fetchPrevious, CallEv.ragSetup] }
            else
              let out := generate_descriptionsT merged diff env.rag
              if env.persistRaises then
                { taskStatus := TaskStatus.failed, taskError := some ErrMsg.unexpected,
                  projectStatus := some ProjectStatus.failed, savedSpecs := [],
                  calls := [CallEv.fetchSpec, CallEv.fetchPrevious, CallEv.ragSetup]
                    ++ out.2.map CallEv.annotate }
              else
                { taskStatus := TaskStatus.success, taskError := none,
                  projectStatus := some ProjectStatus.active,
                  savedSpecs := [out.1],
                  calls := [CallEv.fetchSpec, CallEv.fetchPrevious, CallEv.ragSetup]
                    ++ out.2.map CallEv.annotate ++ [CallEv.persist out.1] }

/-! ### Concrete runs for claims C1, C2, C3, C7 -/

/-- A current spec with two changed paths, one unchanged path and two
schemas. -/
def opA : Json := Json.obj [("get", Json.obj [("summary", Json.str "a")])]

def opB : Json := Json.obj [("get", Json.obj [("summary", Json.str "b")])]

def opC : Json := Json.obj [("get", Json.obj [("summary", Json.str "c")])]

def schemaA : Json := Json.obj [("type", Json.str "object")]

def schemaB : Json := Json.obj [("type", Json.str "string")]

def specC7 : Json := Json.obj [
  ("openapi", Json.str "3.0.0"),
  ("info", Json.obj [("title", Json.str "T"), ("version", Json.str "1")]),
  ("paths", Json.obj [("/v1/a", opA), ("/v1/b", opB), ("/w/c", opC)]),
  ("components", Json.obj [("schemas",
    Json.obj [("A", schemaA), ("B", schemaB)])])]

/-- A diff report marking `/v1/a` and `/v1/b` as added: they fall into two
different groups, hence two annotation batches. -/
def diffC7 : DiffReport :=
  { DiffReport.empty with added_paths := [("/v1/a", opA), ("/v1/b", opB)] }

def opA2 : Json := Json.obj [("get", Json.obj [("summary", Json.str "a"),
  ("description", Json.str "generated a")])]

def schemaA2 : Json := Json.obj [("type", Json.str "object"),
  ("description", Json.str "generated A")]

/-- The fragment the first annotation call returns: a new `/v1/a` path item
and a new `A` schema. -/
def fragC7 : Json := Json.obj [
  ("paths", Json.obj [("/v1/a", opA2)]),
  ("components", Json.obj [("schemas", Json.obj [("A", schemaA2)])])]

/-- The first annotation call succeeds with `fragC7`; the second fails. -/
def ragC7 : Nat → Option Json := fun i => if i = 0 then some fragC7 else none

/-- The expected final spec: `/v1/a` and `A` overwritten in place, all other
keys exactly as carried forward. -/
def expectedC7 : Json := Json.obj [
  ("openapi", Json.str "3.0.0"),
  ("info", Json.obj [("title", Json.str "T"), ("version", Json.str "1")]),
  ("paths", Json.obj [("/v1/a", opA2), ("/v1/b", opB), ("/w/c", opC)]),
  ("components", Json.obj [("schemas",
    Json.obj [("A", schemaA2), ("B", schemaB)])])]

/-- A spec used as both the previous and the freshly fetched one: the run's
diff is empty. -/
def s0C3 : Json := Json.obj [
  ("paths", Json.obj [("/v1/a", opA)]),
  ("components", Json.obj [("schemas", Json.obj [("A", schemaA)])])]

/-- An environment whose run has an empty diff and no failure anywhere. -/
def envC3 : Env :=
  { lock := LockOutcome.granted,
    dbProject := some { source_openapi_url := some "http://u",
                        status := ProjectStatus.active },
    fetched := some s0C3,
    previous := Except.ok (some s0C3),
    ragCompleted := true,
    rag := fun _ => none,
    persistRaises := false }

/-- An environment whose previous-spec read raises. -/
def envC1 : Env :=
  { lock := LockOutcome.granted,
    dbProject := some { source_openapi_url := some "http://u",
                        status := ProjectStatus.init },
    fetched := some s0C3,
    previous := Except.error (),
    ragCompleted := true,
    rag := fun _ => none,
    persistRaises := false }

/-- An environment whose lock acquisition loses to a concurrent run. -/
def envC2 : Env :=
  { lock := LockOutcome.locked,
    dbProject := some { source_openapi_url := some "http://u",
                        status := ProjectStatus.active },
    fetched := some s0C3,
    previous := Except.ok (some s0C3),
    ragCompleted := true,
    rag := fun _ => none,
    persistRaises := false }

/-! ### Lemmas about whole runs -/

/-- An empty paths diff makes `generate_descriptions` return its input
untouched and send no annotation call. -/
theorem generate_descriptionsT_empty_diff (spec : Json) (d : DiffReport)
    (rag2 : Nat → Option Json)
    (h1 : d.added_paths = []) (h2 : d.modified_paths = []) :
    generate_descriptionsT spec d rag2 = (spec, []) := by
  have hp : pathsToProcess d = [] := by
    unfold pathsToProcess
    rw [h1, h2]
    rfl
  unfold generate_descriptionsT
  rw [hp]
  rfl

/-- A path key untouched by every returned fragment keeps its value through
`generate_descriptions`. -/
theorem generate_descriptions_lookupPath (spec : Json) (d : DiffReport)
    (rag2 : Nat → Option Json) (k : String)
    (hr : ∀ i c, rag2 i = some c →
      Json.containsKey (Json.asObj (c.getD "paths" (Json.obj []))) k = false) :
    lookupPath (generate_descriptions spec d rag2) k = lookupPath spec k := by
  simp only [generate_descriptions, generate_descriptionsT]
  split
  · rfl
  · split
    · rfl
    · split
      · rfl
      · exact processBatches_lookupPath rag2 k hr _ spec []

/-- A schema name untouched by every returned fragment keeps its value
through `generate_descriptions`. -/
theorem generate_descriptions_lookupSchema (spec : Json) (d : DiffReport)
    (rag2 : Nat → Option Json) (k : String)
    (hr : ∀ i c, rag2 i = some c → Json.containsKey (Json.asObj
      ((c.getD "components" (Json.obj [])).getD "schemas" (Json.obj []))) k
      = false) :
    lookupSchema (generate_descriptions spec d rag2) k = lookupSchema spec k := by
  simp only [generate_descriptions, generate_descriptionsT]
  split
  · rfl
  · split
    · rfl
    · split
      · rfl
      · exact processBatches_lookupSchema rag2 k hr _ spec []

/-- If every annotation call fails, `generate_descriptions` returns its
input untouched. -/
theorem generate_descriptions_all_none (spec : Json) (d : DiffReport)
    (rag2 : Nat → Option Json) (h : ∀ i, rag2 i = none) :
    generate_descriptions spec d rag2 = spec := by
  simp only [generate_descriptions, generate_descriptionsT]
  split
  · rfl
  · split
    · rfl
    · split
      · rfl
      · exact processBatches_all_none rag2 h _ spec []

/-- A run in which every boundary succeeds ends with task `success` and
project `active`, saving the annotated spec — whatever the annotation
oracle answers. -/
theorem run_happy_success (env : Env) (p : ProjectRow) (u : String) (src : Json)
    (prevOpt : Option Json)
    (hl : env.lock = LockOutcome.granted) (hp : env.dbProject = some p)
    (hu : p.source_openapi_url = some u) (hf : env.fetched = some src)
    (hprev : env.previous = Except.ok prevOpt) (hrc : env.ragCompleted = true)
    (hpr : env.persistRaises = false) :
    (initiate_doc_generation_process env).taskStatus = TaskStatus.success ∧
    (initiate_doc_generation_process env).projectStatus =
      some ProjectStatus.active ∧
    (initiate_doc_generation_process env).savedSpecs =
      [generate_descriptions (mergeIfPrev prevOpt src)
        (calculate_spec_diff prevOpt (mergeIfPrev prevOpt src)) env.rag] ∧
    (initiate_doc_generation_process env).calls =
      [CallEv.fetchSpec, CallEv.fetchPrevious, CallEv.ragSetup]
        ++ (generate_descriptionsT (mergeIfPrev prevOpt src)
             (calculate_spec_diff prevOpt (mergeIfPrev prevOpt src)) env.rag).2.map
             CallEv.annotate
        ++ [CallEv.persist (generate_descriptions (mergeIfPrev prevOpt src)
             (calculate_spec_diff prevOpt (mergeIfPrev prevOpt src)) env.rag)] := by
  simp only [initiate_doc_generation_process, hl, hp, hu, hf, hprev, hrc, hpr,
    generate_descriptions]
  exact ⟨rfl, rfl, rfl, rfl⟩

/-- An empty paths diff makes the returned spec exactly the input. -/
theorem generate_descriptions_empty_diff (spec : Json) (d : DiffReport)
    (rag2 : Nat → Option Json)
    (h1 : d.added_paths = []) (h2 : d.modified_paths = []) :
    generate_descriptions spec d rag2 = spec := by
  unfold generate_descriptions
  rw [generate_descriptionsT_empty_diff spec d rag2 h1 h2]

/-- **C1.** Every run ends with the task in a terminal status (`success` or
`failed`, never `pending` or `processing`); each of the two
oracle-raised exceptions (the previous-spec read, the final persist) is
caught at the pipeline boundary and turned into task `failed`, and — once
the project row was loaded (and the other stages reached the raising one) —
project `failed` as well. -/
theorem c1_terminal_status (env : Env) :
    ((initiate_doc_generation_process env).taskStatus = TaskStatus.success ∨
     (initiate_doc_generation_process env).taskStatus = TaskStatus.failed) ∧
    (initiate_doc_generation_process env).taskStatus ≠ TaskStatus.pending ∧
    (initiate_doc_generation_process env).taskStatus ≠ TaskStatus.processing ∧
    (env.previous = Except.error () →
      (initiate_doc_generation_process env).taskStatus = TaskStatus.failed) ∧
    (env.persistRaises = true →
      (initiate_doc_generation_process env).taskStatus = TaskStatus.failed) ∧
    (∀ p u src, env.lock = LockOutcome.granted → env.dbProject = some p →
      p.source_openapi_url = some u → env.fetched = some src →
      env.previous = Except.error () →
      (initiate_doc_generation_process env).taskStatus = TaskStatus.failed ∧
      (initiate_doc_generation_process env).projectStatus =
        some ProjectStatus.failed) ∧
    (∀ p u src prevOpt, env.lock = LockOutcome.granted →
      env.dbProject = some p → p.source_openapi_url = some u →
      env.fetched = some src → env.previous = Except.ok prevOpt →
      env.persistRaises = true →
      (initiate_doc_generation_process env).taskStatus = TaskStatus.failed ∧
      (initiate_doc_generation_process env).projectStatus =
        some ProjectStatus.failed) := by
  obtain ⟨lk, dbp, ftch, prv, rc, rg, pr⟩ := env
  rcases dbp with _ | ⟨pu, pst⟩
  · cases lk <;> cases ftch <;> rcases prv with u1 | prevOpt <;> cases rc <;>
      cases pr <;> simp [initiate_doc_generation_process]
  · rcases pu with _ | u0 <;> cases lk <;> cases ftch <;>
      rcases prv with u1 | prevOpt <;> cases rc <;> cases pr <;>
      simp [initiate_doc_generation_process]

theorem c1_terminal_status_witness :
    envC1.previous = Except.error () ∧
    (initiate_doc_generation_process envC1).taskStatus = TaskStatus.failed ∧
    (initiate_doc_generation_process envC1).projectStatus =
      some ProjectStatus.failed := by
  have h := (c1_terminal_status envC1).2.2.2.2.2.1
    { source_openapi_url := some "http://u", status := ProjectStatus.init }
    "http://u" s0C3 rfl rfl rfl rfl rfl
  exact ⟨rfl, h.1, h.2⟩

/-- **C2.** Losing the non-blocking project lock fails the task with the
lock-contention error, performs no collaborator call, saves nothing, and
leaves the project row's status exactly as it was. -/
theorem c2_lock_contention (env : Env) (h : env.lock = LockOutcome.locked) :
    (initiate_doc_generation_process env).taskStatus = TaskStatus.failed ∧
    (initiate_doc_generation_process env).taskError =
      some ErrMsg.lockContention ∧
    (initiate_doc_generation_process env).projectStatus =
      env.dbProject.map ProjectRow.status ∧
    (initiate_doc_generation_process env).calls = [] ∧
    (initiate_doc_generation_process env).savedSpecs = [] := by
  simp [initiate_doc_generation_process, h]

theorem c2_lock_contention_witness :
    (initiate_doc_generation_process envC2).taskStatus = TaskStatus.failed ∧
    (initiate_doc_generation_process envC2).taskError =
      some ErrMsg.lockContention ∧
    (initiate_doc_generation_process envC2).projectStatus =
      some ProjectStatus.active ∧
    (initiate_doc_generation_process envC2).calls = [] ∧
    (initiate_doc_generation_process envC2).savedSpecs = [] := by
  have h := c2_lock_contention envC2 rfl
  exact ⟨h.1, h.2.1, h.2.2.1, h.2.2.2.1, h.2.2.2.2⟩

/-- **C3** is refuted by this run: its diff report is entirely empty, yet
the Code-RAG indexing collaborator is still contacted (the setup-and-wait
call precedes the diff check and is unconditional in the source). -/
theorem c3_counterexample :
    calculate_spec_diff (some s0C3) (mergeIfPrev (some s0C3) s0C3) =
      DiffReport.empty ∧
    CallEv.ragSetup ∈ (initiate_doc_generation_process envC3).calls := by
  decide

/-- **C3** (amended). With no added and no modified paths the annotation
stage is skipped — `generate_descriptions` returns its input and sends no
batch — but the indexing-readiness wait still happens: such a run's calls
are exactly fetch, previous-read, Code-RAG setup, persist, with no
annotation call. -/
theorem c3_empty_diff_short_circuit (spec : Json) (d : DiffReport)
    (rag2 : Nat → Option Json)
    (h1 : d.added_paths = []) (h2 : d.modified_paths = [])
    (env : Env) (p : ProjectRow) (u : String) (src : Json)
    (prevOpt : Option Json)
    (hl : env.lock = LockOutcome.granted) (hp : env.dbProject = some p)
    (hu : p.source_openapi_url = some u) (hf : env.fetched = some src)
    (hprev : env.previous = Except.ok prevOpt) (hrc : env.ragCompleted = true)
    (hpr : env.persistRaises = false)
    (hd1 : (calculate_spec_diff prevOpt (mergeIfPrev prevOpt src)).added_paths
      = [])
    (hd2 : (calculate_spec_diff prevOpt
      (mergeIfPrev prevOpt src)).modified_paths = []) :
    generate_descriptionsT spec d rag2 = (spec, []) ∧
    (initiate_doc_generation_process env).calls =
      [CallEv.fetchSpec, CallEv.fetchPrevious, CallEv.ragSetup,
       CallEv.persist (mergeIfPrev prevOpt src)] := by
  refine ⟨generate_descriptionsT_empty_diff spec d rag2 h1 h2, ?_⟩
  have hc := (run_happy_success env p u src prevOpt hl hp hu hf hprev hrc hpr).2.2.2
  rw [hc, generate_descriptionsT_empty_diff _ _ env.rag hd1 hd2,
    generate_descriptions_empty_diff _ _ env.rag hd1 hd2]
  rfl

theorem c3_empty_diff_short_circuit_witness :
    generate_descriptionsT s0C3 DiffReport.empty (fun _ => none) =
      (s0C3, []) ∧
    (initiate_doc_generation_process envC3).calls =
      [CallEv.fetchSpec, CallEv.fetchPrevious, CallEv.ragSetup,
       CallEv.persist (mergeIfPrev (some s0C3) s0C3)] :=
  c3_empty_diff_short_circuit s0C3 DiffReport.empty (fun _ => none) rfl rfl
    envC3
    { source_openapi_url := some "http://u", status := ProjectStatus.active }
    "http://u" s0C3 (some s0C3) rfl rfl rfl rfl rfl rfl rfl
    (by decide) (by decide)

/-- **C7.** Returned fragments overwrite the identically-keyed path and
schema entries of the carried-forward spec; keys untouched by every
returned fragment keep exactly their carried-forward values; a failed call
contributes nothing (all calls failing returns the input unchanged); and a
run whose boundaries all succeed ends task `success`, project `active`
whatever the annotation oracle answers.  In the concrete run, the first
fragment overwrites path `/v1/a` and schema `A` in place while `/v1/b`,
`/w/c` and `B` stay exactly as carried forward, and both batches were
attempted (the second failed). -/
theorem c7_fragment_merge :
    (∀ (spec : Json) (d : DiffReport) (rag2 : Nat → Option Json) (k : String),
      (∀ i c, rag2 i = some c →
        Json.containsKey (Json.asObj (c.getD "paths" (Json.obj []))) k
          = false) →
      lookupPath (generate_descriptions spec d rag2) k = lookupPath spec k) ∧
    (∀ (spec : Json) (d : DiffReport) (rag2 : Nat → Option Json) (k : String),
      (∀ i c, rag2 i = some c → Json.containsKey (Json.asObj
        ((c.getD "components" (Json.obj [])).getD "schemas" (Json.obj []))) k
        = false) →
      lookupSchema (generate_descriptions spec d rag2) k =
        lookupSchema spec k) ∧
    (∀ (spec : Json) (d : DiffReport) (rag2 : Nat → Option Json),
      (∀ i, rag2 i = none) → generate_descriptions spec d rag2 = spec) ∧
    (generate_descriptions specC7 diffC7 ragC7 = expectedC7 ∧
     (generate_descriptionsT specC7 diffC7 ragC7).2.length = 2) ∧
    (∀ (env : Env) (p : ProjectRow) (u : String) (src : Json)
        (prevOpt : Option Json),
      env.lock = LockOutcome.granted → env.dbProject = some p →
      p.source_openapi_url = some u → env.fetched = some src →
      env.previous = Except.ok prevOpt → env.ragCompleted = true →
      env.persistRaises = false →
      (initiate_doc_generation_process env).taskStatus = TaskStatus.success ∧
      (initiate_doc_generation_process env).projectStatus =
        some ProjectStatus.active) := by
  refine ⟨generate_descriptions_lookupPath, generate_descriptions_lookupSchema,
    generate_descriptions_all_none, ⟨by decide, by decide⟩, ?_⟩
  intro env p u src prevOpt hl hp hu hf hprev hrc hpr
  have h := run_happy_success env p u src prevOpt hl hp hu hf hprev hrc hpr
  exact ⟨h.1, h.2.1⟩

theorem c7_fragment_merge_witness :
    lookupPath (generate_descriptions specC7 diffC7 ragC7) "/w/c" =
      lookupPath specC7 "/w/c" ∧
    lookupSchema (generate_descriptions specC7 diffC7 ragC7) "B" =
      lookupSchema specC7 "B" ∧
    generate_descriptions specC7 diffC7 (fun _ => none) = specC7 ∧
    (initiate_doc_generation_process envC3).taskStatus = TaskStatus.success := by
  have h := c7_fragment_merge
  refine ⟨h.1 specC7 diffC7 ragC7 "/w/c" ?_,
    h.2.1 specC7 diffC7 ragC7 "B" ?_,
    h.2.2.1 specC7 diffC7 (fun _ => none) (fun _ => rfl),
    (h.2.2.2.2 envC3
      { source_openapi_url := some "http://u", status := ProjectStatus.active }
      "http://u" s0C3 (some s0C3) rfl rfl rfl rfl rfl rfl rfl).1⟩
  · intro i c hic
    by_cases hi : i = 0
    · rw [show ragC7 i = if i = 0 then some fragC7 else none from rfl,
        if_pos hi] at hic
      cases Option.some.inj hic
      decide
    · rw [show ragC7 i = if i = 0 then some fragC7 else none from rfl,
        if_neg hi] at hic
      exact Option.noConfusion hic
  · intro i c hic
    by_cases hi : i = 0
    · rw [show ragC7 i = if i = 0 then some fragC7 else none from rfl,
        if_pos hi] at hic
      cases Option.some.inj hic
      decide
    · rw [show ragC7 i = if i = 0 then some fragC7 else none from rfl,
        if_neg hi] at hic
      exact Option.noConfusion hic
